import Mathlib

/-!
Shallow embedding of the turtlenekko benchmark engine.

Go values are modelled as follows: machine `int` and `time.Duration` become
`Int`; `float64` becomes `ℚ` (exact rational arithmetic idealising IEEE
floats; every float operation the code performs on this data is rational
except `math.Pow(x, 1.0/3.0)`, which is abstracted as an explicit `cbrt`
parameter); Go strings whose character content matters become `List Char`;
Go maps become association lists in insertion order (Go map iteration order
is unspecified; all quantities derived from iterating a map here are sums or
lengths, which are order independent); nilable pointers become `Option`;
fallible calls return `Option`.  Effectful collaborators (the HTTP completion
client, the environment driver, the random generator) are abstracted as
explicit function parameters or input data, and the driver-call sequence of
`Run` is made visible as an explicit trace.
-/

namespace Turtlenekko

/-- Embeds `CompletionResult` (token usage and timing of one LLM response).
`responseTime` is in nanoseconds, as Go `time.Duration`. -/
structure CompletionResult where
  promptTokens : Int
  cachedPromptTokens : Int
  completionTokens : Int
  responseTime : Int
deriving DecidableEq, Repr

/-- Embeds `ModelFitResult` (fitted per-token-type rates in ms/token and the
goodness of fit). -/
structure ModelFitResult where
  promptRate : ℚ
  cachedPromptRate : ℚ
  completionRate : ℚ
  rSquared : ℚ
deriving DecidableEq, Repr

/-- Embeds `BenchmarkConfig` (one probe configuration). -/
structure BenchmarkConfig where
  promptLength : Int
  maxTokens : Int
deriving DecidableEq, Repr

/-- Embeds `ChatMessage`. The content is a `List Char` so that the length
bookkeeping of the generators is faithful to Go byte strings (the corpus and
the generated text are ASCII). -/
structure ChatMessage where
  role : String
  content : List Char
deriving DecidableEq, Repr

/-- Embeds `ChatCompletionParams`. -/
structure ChatCompletionParams where
  messages : List ChatMessage
  temperature : ℚ
  topP : ℚ
  maxCompletionTokens : Int
  seed : Int
deriving DecidableEq, Repr

/-- Embeds Go `math.Abs` on the rational idealisation of `float64`. -/
def mathAbs (x : ℚ) : ℚ := if x < 0 then -x else x

/-- Embeds Go `math.Max` on the rational idealisation of `float64`. -/
def mathMax (x y : ℚ) : ℚ := if x < y then y else x

/-- Embeds Go `math.Round` (round half away from zero). -/
def mathRound (x : ℚ) : ℚ :=
  if x < 0 then -((⌊-x + 1/2⌋ : ℤ) : ℚ) else ((⌊x + 1/2⌋ : ℤ) : ℚ)

/-- `math.Round(x*100)/100`, the two-decimal rounding used for the score. -/
def round2 (x : ℚ) : ℚ := mathRound (x * 100) / 100

/-- Embeds `result.ResponseTime.Milliseconds()`: Go divides the nanosecond
count by 1e6 with truncation toward zero, then the code converts to float. -/
def responseMs (r : CompletionResult) : ℚ := ((Int.tdiv r.responseTime 1000000 : Int) : ℚ)

/-- The token-count triple of a result, the key of the best-results map in
`runContextBenchmark` (Go formats it as "p:cp:c"; the formatted string and
the triple are in bijection). -/
def sigKey (r : CompletionResult) : Int × Int × Int :=
  (r.promptTokens, r.cachedPromptTokens, r.completionTokens)

/-- The `bestResults` map of `runContextBenchmark`, modelled as an
association list in insertion order. -/
abbrev SigMap := List ((Int × Int × Int) × CompletionResult)

/-- Go map read `bestResults[key]`. -/
def lookupSig : SigMap → Int × Int × Int → Option CompletionResult
  | [], _ => none
  | (k, r) :: rest, s => if k = s then some r else lookupSig rest s

/-- Go map write `bestResults[key] = v` for a key already present. -/
def replaceSig : SigMap → Int × Int × Int → CompletionResult → SigMap
  | [], _, _ => []
  | (k, r) :: rest, s, v =>
    if k = s then (k, v) :: replaceSig rest s v else (k, r) :: replaceSig rest s v

/-- Embeds the per-result body of the retention loop of `runContextBenchmark`
(lines 637-662): keep the incoming result exactly when its token signature is
new or its response time is strictly lower than the retained one. -/
def insertBest (m : SigMap) (result : CompletionResult) : SigMap :=
  match lookupSig m (sigKey result) with
  | none => m ++ [(sigKey result, result)]
  | some existing =>
    if result.responseTime < existing.responseTime then replaceSig m (sigKey result) result
    else m

/-- The retained map after processing a sequence of results one by one. -/
def buildBest (results : List CompletionResult) : SigMap := results.foldl insertBest []

/-- Go `for _, result := range bestResults` collecting the values
(iteration order modelled as insertion order). -/
def bestValues (m : SigMap) : List CompletionResult := m.map Prod.snd

/-- The `1e-10` singularity threshold of `fitCompletionTimeModel`. -/
def eps : ℚ := 1 / 10000000000

/-- The regression feature row `[prompt_tokens, cached_prompt_tokens,
completion_tokens]` of one observation, as floats. -/
def obsRow (r : CompletionResult) : Fin 3 → ℚ
  | 0 => (r.promptTokens : ℚ)
  | 1 => (r.cachedPromptTokens : ℚ)
  | 2 => (r.completionTokens : ℚ)

/-- The `xtx = XᵗX` matrix of `fitCompletionTimeModel`. -/
def xtxOf (rs : List CompletionResult) (i j : Fin 3) : ℚ :=
  (rs.map (fun r => obsRow r i * obsRow r j)).sum

/-- The `xty = Xᵗy` vector of `fitCompletionTimeModel`. -/
def xtyOf (rs : List CompletionResult) (i : Fin 3) : ℚ :=
  (rs.map (fun r => obsRow r i * responseMs r)).sum

/-- The augmented matrix `[xtx | xty]` prepared for Gaussian elimination. -/
def augmentedOf (rs : List CompletionResult) : Fin 3 → Fin 4 → ℚ :=
  fun i c => if h : c.val < 3 then xtxOf rs i ⟨c.val, h⟩ else xtyOf rs i

/-- The `allZeros` test on column `j`: no entry of the column exceeds `1e-10`
in magnitude. -/
def colAllZeros (m : Fin 3 → Fin 3 → ℚ) (j : Fin 3) : Bool :=
  (List.finRange 3).all (fun i => ! decide (mathAbs (m i j) > eps))

/-- The singular-matrix pre-check of `fitCompletionTimeModel`: some column of
`xtx` is entirely within `1e-10` of zero. -/
def hasZeroColumn (m : Fin 3 → Fin 3 → ℚ) : Bool :=
  (List.finRange 3).any (colAllZeros m)

/-- The partial-pivot search of the elimination: starting from `maxRow = i`,
scan rows `j > i` in order and keep the row with the strictly largest
magnitude entry in column `i`. -/
def findPivotRow (aug : Fin 3 → Fin 4 → ℚ) (i : Fin 3) : Fin 3 :=
  ((List.finRange 3).filter (fun j => decide (i < j))).foldl
    (fun maxRow j =>
      if mathAbs (aug j i.castSucc) > mathAbs (aug maxRow i.castSucc) then j else maxRow)
    i

/-- The row swap `augmented[i], augmented[maxRow] = augmented[maxRow], augmented[i]`. -/
def swapRows (aug : Fin 3 → Fin 4 → ℚ) (i j : Fin 3) : Fin 3 → Fin 4 → ℚ :=
  fun r c => if r = i then aug j c else if r = j then aug i c else aug r c

/-- The matrix after the row swap of round `i`. -/
def pivotedOf (aug : Fin 3 → Fin 4 → ℚ) (i : Fin 3) : Fin 3 → Fin 4 → ℚ :=
  swapRows aug i (findPivotRow aug i)

/-- The matrix after the scaling of round `i`: row `i` is divided by the
pivot `swapped[i][i]` from column `i` on. -/
def scaledOf (aug : Fin 3 → Fin 4 → ℚ) (i : Fin 3) : Fin 3 → Fin 4 → ℚ :=
  fun r c =>
    if r = i ∧ i.val ≤ c.val then pivotedOf aug i r c / pivotedOf aug i i i.castSucc
    else pivotedOf aug i r c

/-- The matrix after the elimination of round `i`: from each row `j ≠ i` the
factor `augmented[j][i]` (read before row `j` is modified, which the
simultaneous functional update reproduces) times row `i` is subtracted, from
column `i` on. -/
def elimOf (aug : Fin 3 → Fin 4 → ℚ) (i : Fin 3) : Fin 3 → Fin 4 → ℚ :=
  fun r c =>
    if r ≠ i ∧ i.val ≤ c.val then
      scaledOf aug i r c - scaledOf aug i r i.castSucc * scaledOf aug i i c
    else scaledOf aug i r c

/-- One round `i` of the Gaussian elimination of `fitCompletionTimeModel`:
pivot search, row swap, the near-singular guard (`|pivot| < 1e-10` aborts),
scaling, and elimination. -/
def geStep (aug : Fin 3 → Fin 4 → ℚ) (i : Fin 3) : Option (Fin 3 → Fin 4 → ℚ) :=
  if mathAbs (pivotedOf aug i i i.castSucc) < eps then none
  else some (elimOf aug i)

/-- The three elimination rounds; `none` is the "matrix is nearly singular"
abort of any round. -/
def geSolve (aug : Fin 3 → Fin 4 → ℚ) : Option (Fin 3 → Fin 4 → ℚ) :=
  (geStep aug 0).bind fun a1 => (geStep a1 1).bind fun a2 => geStep a2 2

/-- The degenerate fit returned for fewer than 2 results. -/
def zeroFit : ModelFitResult :=
  { promptRate := 0, cachedPromptRate := 0, completionRate := 0, rSquared := 0 }

/-- The documented fallback constants returned on a (near-)singular system:
~3 ms/prompt token, ~0.01 ms/cached token, ~25 ms/completion token,
R² fixed at 0.5 (both fallback sites of the source return these values). -/
def fallbackFit : ModelFitResult :=
  { promptRate := 3, cachedPromptRate := 1/100, completionRate := 25, rSquared := 1/2 }

/-- Embeds `fitCompletionTimeModel`: ordinary least squares for
`time ≈ a·prompt + b·cached + c·completion` via the normal equations and
Gaussian elimination with partial pivoting, with the two singular fallbacks,
the coefficient floors (`a≥0.01`, `b≥0.001`, `c≥0.1`), and the R²
computation against the mean (R² = 0 when the total sum of squares is not
positive).  The input list holds `Option` entries because the Go slice holds
nilable pointers and nil entries are skipped (`if r == nil continue`), while
the initial `len(results) < 2` guard counts them. -/
def fitCompletionTimeModel (results : List (Option CompletionResult)) : ModelFitResult :=
  if results.length < 2 then zeroFit
  else
    let rs := results.filterMap id
    if hasZeroColumn (xtxOf rs) then fallbackFit
    else
      match geSolve (augmentedOf rs) with
      | none => fallbackFit
      | some aug =>
        let a := mathMax (1/100) (aug 0 3)
        let b := mathMax (1/1000) (aug 1 3)
        let c := mathMax (1/10) (aug 2 3)
        let meanY := (rs.map responseMs).sum / (rs.length : ℚ)
        let totalSumSquares := (rs.map (fun r => (responseMs r - meanY) ^ 2)).sum
        let residualSumSquares :=
          (rs.map (fun r =>
            (responseMs r - (a * obsRow r 0 + b * obsRow r 1 + c * obsRow r 2)) ^ 2)).sum
        let rSquared :=
          if 0 < totalSumSquares then 1 - residualSumSquares / totalSumSquares else 0
        { promptRate := a, cachedPromptRate := b, completionRate := c, rSquared := rSquared }

/-- `MinAcceptableRSquared = 0.99`. -/
def MinAcceptableRSquared : ℚ := 0.99

/-- `MaxBenchmarkIterations = 3`. -/
def MaxBenchmarkIterations : Nat := 3

/-- The controller state of `runContextBenchmark`: the `bestResults` map, the
`configsRun` set (as the list of keys marked so far), and, for stating
execution-order properties, the trace of configs actually executed (this
trace is instrumentation; it records each probe the Go code performs). -/
structure CtrlSt where
  best : SigMap
  configsRun : List (Int × Int)
  trace : List BenchmarkConfig
deriving DecidableEq, Repr

/-- The controller state at entry of `runContextBenchmark`. -/
def initialCtrlSt : CtrlSt := { best := [], configsRun := [], trace := [] }

/-- The `configKey` "promptLength:maxTokens" of a config, as a pair. -/
def configKey (c : BenchmarkConfig) : Int × Int := (c.promptLength, c.maxTokens)

/-- Feeding one probe's result slice through the retention loop. -/
def insertResults (m : SigMap) (results : List (Option CompletionResult)) : SigMap :=
  results.foldl
    (fun acc r => match r with
      | none => acc
      | some r => insertBest acc r)
    m

/-- The early-stop check run after each config: with at least 8 retained
signatures, fit the current retained set and succeed when R² reaches
`MinAcceptableRSquared`. -/
def earlyCheck (best : SigMap) : Option (List CompletionResult × ModelFitResult) :=
  if 8 ≤ best.length then
    let currentFit := fitCompletionTimeModel ((bestValues best).map some)
    if MinAcceptableRSquared ≤ currentFit.rSquared then some (bestValues best, currentFit)
    else none
  else none

/-- Processing of one config inside an iteration of `runContextBenchmark`:
skip configs already run when `iteration > 1`; otherwise mark the config run,
execute the probe (`probe cfg = none` models a failed probe, whose results
are simply absent), retain its results, and run the early-stop check.
`Sum.inr` is the early `return currentResults, currentFit, nil`. -/
def processConfig (probe : BenchmarkConfig → Option (List (Option CompletionResult)))
    (iteration : Nat) (st : CtrlSt) (config : BenchmarkConfig) :
    CtrlSt ⊕ (CtrlSt × (List CompletionResult × ModelFitResult)) :=
  if 1 < iteration ∧ configKey config ∈ st.configsRun then Sum.inl st
  else
    let best' := match probe config with
      | none => st.best
      | some results => insertResults st.best results
    let st' : CtrlSt :=
      { best := best', configsRun := configKey config :: st.configsRun,
        trace := st.trace ++ [config] }
    match earlyCheck st'.best with
    | some out => Sum.inr (st', out)
    | none => Sum.inl st'

/-- The config loop of one iteration of `runContextBenchmark`. -/
def runIterConfigs (probe : BenchmarkConfig → Option (List (Option CompletionResult)))
    (iteration : Nat) :
    List BenchmarkConfig → CtrlSt → CtrlSt ⊕ (CtrlSt × (List CompletionResult × ModelFitResult))
  | [], st => Sum.inl st
  | config :: rest, st =>
    match processConfig probe iteration st config with
    | Sum.inl st' => runIterConfigs probe iteration rest st'
    | Sum.inr e => Sum.inr e

/-- The final fit of `runContextBenchmark`: computed only with at least 4
retained signatures, otherwise absent (`nil`). -/
def finalFit (best : SigMap) : Option ModelFitResult :=
  if 4 ≤ best.length then some (fitCompletionTimeModel ((bestValues best).map some))
  else none

/-- The iteration loop of `runContextBenchmark` (fuel counts the iterations
still allowed; fuel 0 is the "should never be reached" tail after the loop).
Each iteration runs the config loop, then either returns early, or applies
the end-of-iteration check (last iteration, or fewer than 4 signatures),
or advances to the next iteration. -/
def runIterations (probe : BenchmarkConfig → Option (List (Option CompletionResult)))
    (configs : List BenchmarkConfig) :
    Nat → Nat → CtrlSt → List CompletionResult × Option ModelFitResult × List BenchmarkConfig
  | 0, _, st => (bestValues st.best, finalFit st.best, st.trace)
  | fuel + 1, iteration, st =>
    match runIterConfigs probe iteration configs st with
    | Sum.inr (st', out) => (out.1, some out.2, st'.trace)
    | Sum.inl st' =>
      if iteration = MaxBenchmarkIterations ∨ st'.best.length < 4 then
        (bestValues st'.best, finalFit st'.best, st'.trace)
      else runIterations probe configs fuel (iteration + 1) st'

/-- Embeds `runContextBenchmark` for one context class, abstracted over the
probe executor (`RunWithPromptLength` with its HTTP transport).  Returns the
retained observations, the fit (or `none`), and the trace of executed
configs. -/
def runContextBenchmark (probe : BenchmarkConfig → Option (List (Option CompletionResult)))
    (configs : List BenchmarkConfig) :
    List CompletionResult × Option ModelFitResult × List BenchmarkConfig :=
  runIterations probe configs MaxBenchmarkIterations 1 initialCtrlSt

/-- `AvgPromptTokens = 1331.56`, the reference mean prompt length. -/
def AvgPromptTokens : ℚ := 1331.56

/-- `ScalingFactor = 10.0`. -/
def ScalingFactor : ℚ := 10

/-- Embeds `Calculate` (the LocalScore calculator).  `cbrt` abstracts
`math.Pow(x, 1.0/3.0)`, the only non-rational float operation of the
pipeline; everything else is exact.  The accumulation loop over the fits and
the `validContexts` counter mirror the source. -/
def Calculate (cbrt : ℚ → ℚ) (modelFits : List (Option ModelFitResult)) : Option ℚ :=
  let acc := modelFits.foldl
    (fun (acc : ℚ × ℚ × Nat) modelFit =>
      match modelFit with
      | some f =>
        if 0 < f.promptRate ∧ 0 < f.completionRate then
          (acc.1 + 1000 / f.promptRate, acc.2.1 + 1000 / f.completionRate, acc.2.2 + 1)
        else acc
      | none => acc)
    (0, 0, 0)
  if 0 < acc.2.2 then
    let promptTPS := acc.1 / (acc.2.2 : ℚ)
    let genTPS := acc.2.1 / (acc.2.2 : ℚ)
    let ttftMS := AvgPromptTokens / promptTPS * 1000
    let score := cbrt (promptTPS * genTPS * (1000 / ttftMS)) * ScalingFactor
    some (round2 score)
  else none

/-- A fit contributes to the score exactly when it is non-nil with positive
prompt and completion rates. -/
def contributes : Option ModelFitResult → Prop
  | some f => 0 < f.promptRate ∧ 0 < f.completionRate
  | none => False

instance (mf : Option ModelFitResult) : Decidable (contributes mf) :=
  match mf with
  | some f => inferInstanceAs (Decidable (0 < f.promptRate ∧ 0 < f.completionRate))
  | none => inferInstanceAs (Decidable False)

/-- The contributing fits of an input list, in order. -/
def contribList (modelFits : List (Option ModelFitResult)) : List ModelFitResult :=
  modelFits.filterMap (fun mf => if contributes mf then mf else none)

/-- The composite score as the specification words it: average the
contributing fits' tokens/sec figures, derive the effective TTFT from
`AvgPromptTokens`, and take the scaled cube root, rounded to 2 decimals;
absent without contributing fits.  Stated independently of `Calculate` to be
compared with it. -/
def specCompositeScore (cbrt : ℚ → ℚ) (modelFits : List (Option ModelFitResult)) : Option ℚ :=
  let contrib := contribList modelFits
  if contrib = [] then none
  else
    let n : ℚ := (contrib.length : ℚ)
    let avgPromptTPS := ((contrib.map (fun f => 1000 / f.promptRate)).sum) / n
    let avgCompletionTPS := ((contrib.map (fun f => 1000 / f.completionRate)).sum) / n
    let ttftMS := AvgPromptTokens / avgPromptTPS * 1000
    some (round2 (cbrt (avgPromptTPS * avgCompletionTPS * (1000 / ttftMS)) * ScalingFactor))

/-- The fixed filler corpus `loremIpsumText` of the probe content generator
(verbatim from the source; plain ASCII, so Go byte length and character
count coincide). -/
def loremIpsumText : List Char :=
  "Lorem ipsum dolor sit amet, consectetur adipiscing elit. Donec risus erat, interdum id magna egestas, sodales malesuada lacus. Nullam at sagittis lacus. Aliquam erat volutpat. Suspendisse sed dolor diam. Nunc ac purus ultrices, aliquet velit et, iaculis mauris. Nullam vitae justo est. Nam id nisi nisl. Pellentesque euismod ut urna a fringilla. Donec dictum, dolor vitae sagittis sollicitudin, dui quam posuere massa, non aliquet mauris justo maximus sapien. Proin suscipit ut turpis quis blandit. Sed sit amet convallis libero. Curabitur sed scelerisque nisi. Pellentesque faucibus commodo convallis. Nulla pellentesque ut turpis eu rutrum. Fusce ligula mi, elementum et dolor sit amet, accumsan eleifend dui. Vivamus vel massa vel nibh interdum euismod et vel elit. Praesent rutrum mi eu eleifend fringilla. Cras venenatis libero ac felis faucibus, et tincidunt est dignissim. Donec condimentum libero ex, at dictum odio maximus eu. Donec at accumsan turpis, at lacinia risus. Orci varius natoque penatibus et magnis dis parturient montes, nascetur ridiculus mus. Fusce maximus orci diam, eget consequat eros laoreet in. Morbi iaculis tincidunt erat, eget maximus risus mattis a. Donec ut nunc a augue placerat gravida. Fusce vitae eros eget eros maximus cursus at ut dolor. Sed eu finibus nulla. Pellentesque id placerat felis. Mauris at risus bibendum, ultrices felis ac, viverra urna. Orci varius natoque penatibus et magnis dis parturient montes, nascetur ridiculus mus. Donec lobortis cursus feugiat. Sed fermentum est nec sapien maximus, non lobortis tortor feugiat. Phasellus in molestie risus. Etiam faucibus sapien ex, nec elementum purus faucibus nec. Ut sed massa ornare nunc condimentum tincidunt et et massa. Nam interdum mattis nulla, et interdum nisl sollicitudin vitae. Maecenas eget quam ut tellus rhoncus placerat. Praesent eu felis quis nisi faucibus porta. Maecenas eleifend ultricies faucibus. Sed tempor felis at nulla mollis dignissim. Praesent ac accumsan elit. Maecenas efficitur, nunc a feugiat tristique, urna diam facilisis odio, gravida consectetur risus ex ac dui. Sed laoreet elit et tellus efficitur, id rhoncus risus interdum. In tincidunt porta bibendum. In porta nisl porttitor nisl rutrum, at auctor arcu eleifend. Mauris ac volutpat turpis. Maecenas consequat lectus sit amet nibh posuere, vitae euismod felis tristique. Aliquam imperdiet varius sodales. Aliquam eget mauris in felis elementum facilisis. In efficitur euismod orci porttitor scelerisque. Curabitur imperdiet tellus eros, in varius tellus egestas et. Vivamus auctor ipsum in varius vulputate. In hac habitasse platea dictumst. Vivamus lacinia tellus vel mattis auctor. Vivamus quis condimentum lacus. Sed imperdiet libero ut ipsum tempor, ut consequat quam consectetur. Etiam leo ex, viverra porta diam vitae, molestie imperdiet diam. Fusce a nisl eu arcu rhoncus volutpat. Vestibulum ante ipsum primis in faucibus orci luctus et ultrices posuere cubilia curae; Aenean rutrum rhoncus sem, sed rhoncus leo imperdiet in. Proin a euismod enim. Vivamus elementum ligula quis lacus vehicula fermentum. Aenean venenatis, est ut interdum suscipit, risus nibh molestie purus, a posuere dui sem ac nibh. Donec aliquet diam nec nunc vehicula sollicitudin. Donec feugiat faucibus diam sit amet vulputate. Praesent rhoncus diam ac felis facilisis varius. Fusce vulputate nisl id suscipit venenatis. Mauris fermentum, nisl quis interdum interdum, risus purus posuere libero, quis accumsan turpis magna id tortor. In tempus malesuada est, nec aliquam urna. Suspendisse tempor et orci tempor rutrum. Curabitur sit amet mauris libero. Etiam convallis libero ipsum, eget imperdiet sapien sodales vitae. Praesent quis commodo nisl. Vestibulum accumsan eget metus ut venenatis. Sed pharetra enim gravida nunc condimentum ullamcorper. Aliquam egestas iaculis mi. Donec finibus dapibus ante, nec rutrum diam feugiat et. Etiam pellentesque, nulla et congue porttitor, magna mi efficitur elit, eget congue lorem metus ac ante. Nullam blandit ligula mi, posuere lobortis risus efficitur id. Duis pharetra convallis urna, at efficitur sem vestibulum eu. Cras aliquam, nunc non venenatis lacinia, lacus ipsum luctus mauris, et placerat nibh sapien tempor nibh. Integer aliquet mauris id scelerisque sollicitudin. Etiam ac magna ipsum. Phasellus mattis ipsum et felis maximus consectetur. Proin fringilla vel dui et tempor. Nam rhoncus eu mauris vitae feugiat. Phasellus feugiat laoreet erat sit amet imperdiet. Fusce sodales ex sapien, vitae ultrices purus pretium sed. Suspendisse nec felis consectetur urna fermentum mollis eget dapibus enim. Cras consequat mauris et cursus accumsan. Ut semper rutrum nisl sit amet congue. Mauris nisl magna, lacinia vitae faucibus in, congue et elit. Maecenas ullamcorper nisl id libero sollicitudin lacinia. Praesent ultrices, massa vitae faucibus porta, nunc nibh venenatis lorem, aliquam ultrices augue nibh vitae lorem. Vivamus faucibus augue in dapibus cursus. Sed facilisis lectus convallis mauris venenatis pulvinar. Vivamus nec nibh vitae nisi pretium tristique. Sed nec est non mauris scelerisque aliquet. Duis a est feugiat, efficitur ex rutrum, condimentum arcu. Mauris ullamcorper molestie odio a sagittis. Mauris aliquam arcu vel ipsum lobortis blandit. Integer quis semper justo. Morbi quis consectetur quam. Curabitur vehicula feugiat ligula at venenatis. In et est vitae odio euismod interdum. Cras metus nulla, volutpat a magna vitae, facilisis hendrerit libero. Donec dictum odio et tellus sagittis tristique. Mauris at arcu velit. Vestibulum eu dolor id nulla sodales finibus a et elit. Morbi ultricies et magna ut fringilla. Interdum et malesuada fames ac ante ipsum primis in faucibus. Ut maximus scelerisque nibh, at ultrices magna iaculis vel. Quisque eu est ac arcu malesuada tristique. Vestibulum vestibulum elementum tellus, nec laoreet turpis ornare quis. Donec imperdiet vulputate tincidunt. Curabitur nisl risus, faucibus ut venenatis id, porttitor sit amet augue. Integer molestie iaculis condimentum. Donec varius elit ipsum, sed vestibulum eros finibus lacinia. Vestibulum congue mollis nisi, quis pretium ligula maximus in. Ut tincidunt auctor tincidunt. Nam a convallis erat. Donec dignissim porta cursus. Nam malesuada tempor sem, et cursus tellus. Nulla commodo fringilla tellus dictum dapibus. Sed sed sapien ante. Nullam luctus, neque nec faucibus auctor, erat urna condimentum ipsum, id imperdiet metus nisl eu tellus. Praesent id ante semper, commodo mi nec, placerat ipsum. Quisque mollis porta scelerisque. Cras feugiat, est sed tristique fermentum, diam lorem porta purus, eu semper est sapien ut velit. Vivamus sapien turpis, tincidunt ac mauris vitae, dapibus aliquam urna. Nulla vestibulum egestas felis. Sed ultricies ullamcorper justo eget fermentum. Morbi. ".toList

/-- The Go loop `for i := 0; i < repeats; i++ { result += loremIpsumText }`. -/
def repeatText : Nat → List Char
  | 0 => []
  | n + 1 => loremIpsumText ++ repeatText n

/-- Embeds `generateLoremIpsum`: empty for a non-positive length, otherwise
the corpus repeated `ceil(length/len(corpus))` times and truncated to the
exact requested length (Go `/` on int truncates toward zero, `Int.tdiv`). -/
def generateLoremIpsum (targetLength : Int) : List Char :=
  if targetLength ≤ 0 then []
  else
    let repeats :=
      Int.tdiv (targetLength + (loremIpsumText.length : Int) - 1) (loremIpsumText.length : Int)
    let result := repeatText repeats.toNat
    if targetLength < (result.length : Int) then result.take targetLength.toNat else result

/-- Embeds `generateMessages`: one user message whose content is the random
prefix `"seed:" ++ <random token> ++ "\n"`, the filler, and the postfix when
non-empty.  The output of `generateRandomContent(10)` is injected as the
`randSeed` parameter (its only property used anywhere is being random). -/
def generateMessages (systemContentLength : Int) (sfx : List Char) (randSeed : List Char) :
    List ChatMessage :=
  let content :=
    "seed:".toList ++ randSeed ++ ['\n'] ++ generateLoremIpsum systemContentLength
  let content := if sfx ≠ [] then content ++ sfx else content
  [{ role := "user", content := content }]

/-- The fixed chat-completion parameters built by `RunWithPromptLength`:
deterministic sampling, fixed seed 42. -/
def mkChatParams (promptLength maxCompletionTokens : Int) (sfx randSeed : List Char) :
    ChatCompletionParams :=
  { messages := generateMessages promptLength sfx randSeed
    temperature := 0
    topP := 1
    maxCompletionTokens := maxCompletionTokens
    seed := 42 }

/-- Embeds `RunWithPromptLength`.  The HTTP client is abstracted as
`client params n`, the result of the `n`-th `ChatCompletion` call with the
given request parameters (`none` for a transport failure).  Both calls are
made with the identical `params` value, as in the source; the second,
cache-reuse result has its prompt tokens reclassified as cached and its
`promptTokens` set to 0. -/
def RunWithPromptLength (client : ChatCompletionParams → Nat → Option CompletionResult)
    (promptLength maxCompletionTokens : Int) (sfx randSeed : List Char) :
    Option (List CompletionResult) :=
  let params := mkChatParams promptLength maxCompletionTokens sfx randSeed
  match client params 0 with
  | none => none
  | some completionResult =>
    match client params 1 with
    | none => none
    | some cachedCompletionResult =>
      some [completionResult,
        { cachedCompletionResult with
            cachedPromptTokens := cachedCompletionResult.promptTokens,
            promptTokens := 0 }]

/-- The driver-interface calls `Run` can make, recorded as a trace. -/
inductive DriverCall where
  | setup
  | teardown
  | getURL
  | getModel
  | runScalingBenchmark
deriving DecidableEq, Repr

/-- An environment driver, abstracted by the outcomes of its calls:
`setupErr` is the error `Setup` returns (if any), `url` and `modelName` what
`GetURL` and `GetModel().Name` report after setup. -/
structure DriverModel where
  setupErr : Option String
  url : String
  modelName : String
deriving DecidableEq, Repr

/-- Embeds the package-level `Run`.  `bench url model` abstracts
`NewBenchmark(url, model, "").RunScalingBenchmark(postfix)` (results, the
two fits, and the error).  The second component is the trace of driver calls
in order: when setup fails, `Run` returns the wrapped error before
`defer d.Teardown()` is registered, so only `setup` appears in the trace;
after a successful setup the deferred teardown runs after the benchmark. -/
def Run
    (bench : String → String →
      List CompletionResult × Option ModelFitResult × Option ModelFitResult × Option String)
    (d : Option DriverModel) :
    (List CompletionResult × Option ModelFitResult × Option ModelFitResult × Option String)
      × List DriverCall :=
  match d with
  | some dm =>
    match dm.setupErr with
    | some e =>
      (([], none, none, some ("driver setup failed: " ++ e)), [DriverCall.setup])
    | none =>
      (bench dm.url dm.modelName,
       [DriverCall.setup, DriverCall.getURL, DriverCall.getModel,
        DriverCall.runScalingBenchmark, DriverCall.teardown])
  | none =>
    (bench "" "", [DriverCall.runScalingBenchmark])

/-- Embeds `types.ParameterConfig` (one matrix entry). -/
structure ParameterConfig where
  values : List String
  output : Bool
deriving DecidableEq, Repr

/-- Go map write `current[key] = value` on the association-list model of the
`current` combination. -/
def setKV : List (String × String) → String → String → List (String × String)
  | [], k, v => [(k, v)]
  | (k', v') :: rest, k, v =>
    if k' = k then (k, v) :: rest else (k', v') :: setKV rest k v

/-- Embeds the recursive `generateCombinations`: at the end of the key list
a copy of the current combination is appended to the accumulated result;
otherwise each value of the current parameter is tried in order (the unused
`outputFlags` argument of the source is dropped). -/
def generateCombinations :
    List (String × List String) → List (String × String) → List (List (String × String)) →
      List (List (String × String))
  | [], current, result => result ++ [current]
  | (k, values) :: rest, current, result =>
    values.foldl (fun res v => generateCombinations rest (setKV current k v) res) result

/-- The `keys`/`paramConfig.Values` pairs retained by
`generateParamCombinations`: parameters with empty value lists are dropped. -/
def keptParams (matrix : List (String × ParameterConfig)) : List (String × List String) :=
  matrix.filterMap (fun kc => if kc.2.values = [] then none else some (kc.1, kc.2.values))

/-- Embeds `generateParamCombinations`: parameters with empty value lists
are dropped; an empty matrix, or one with only empty value lists, yields no
combinations.  The Go map is modelled as an association list (iteration
order fixed to list order; Go map order is unspecified). -/
def generateParamCombinations (matrix : List (String × ParameterConfig)) :
    List (List (String × String)) :=
  if matrix = [] then []
  else if keptParams matrix = [] then []
  else generateCombinations (keptParams matrix) [] []

/-- The cartesian product as the specification words it: all ways of picking
one value per (kept) parameter, leftmost parameter varying slowest.  Stated
independently of `generateCombinations` to be compared with it. -/
def specCombos : List (String × List String) → List (List (String × String))
  | [] => [[]]
  | (k, values) :: rest =>
    (values.map (fun v => (specCombos rest).map (fun tail => (k, v) :: tail))).flatten

/-- `isChoice ks comb`: the combination assigns each kept parameter, in
order, exactly one of its listed values. -/
def isChoice : List (String × List String) → List (String × String) → Prop
  | [], [] => True
  | (k, values) :: rest, (k', v) :: comb => k' = k ∧ v ∈ values ∧ isChoice rest comb
  | [], _ :: _ => False
  | _ :: _, [] => False

/-- The key list of the retained-results map. -/
def sigKeys (m : SigMap) : List (Int × Int × Int) := m.map Prod.fst

/-! Concrete inputs used by the closed instantiations below. -/

/-- A result with signature `(10, 0, 5)` and response time 9ms. -/
def wr1 : CompletionResult := ⟨10, 0, 5, 9000000⟩

/-- A strictly faster result with the same signature as `wr1`. -/
def wr2 : CompletionResult := ⟨10, 0, 5, 7000000⟩

/-- A strictly slower result with the same signature as `wr1`. -/
def wrSlow : CompletionResult := ⟨10, 0, 5, 12000000⟩

/-- Four observations with an invertible normal-equations system (the rows
are `e₁`, `e₂`, `e₃` and the zero row, so `XᵗX` is the identity) whose
response times (5, 5, 5, 4 ms) are fit badly by the zero-intercept model. -/
def c3Input : List (Option CompletionResult) :=
  [some ⟨1, 0, 0, 5000000⟩, some ⟨0, 1, 0, 5000000⟩,
   some ⟨0, 0, 1, 5000000⟩, some ⟨0, 0, 0, 4000000⟩]

/-- Two observations with the identical token signature `(10, 3, 5)`. -/
def cIdentical : List (Option CompletionResult) :=
  [some ⟨10, 3, 5, 7000000⟩, some ⟨10, 3, 5, 9000000⟩]

/-- The non-nil observations of `c3Input`. -/
def c3rs : List CompletionResult := c3Input.filterMap id

/-- The augmented matrix of `c3Input`: the identity `XᵗX` next to `Xᵗy = (5,5,5)`. -/
def c3Table : Fin 3 → Fin 4 → ℚ :=
  fun i c => if c.val = 3 then 5 else if i.val = c.val then 1 else 0

/-- Eight observations with pairwise distinct signatures lying exactly on
`time = 2·prompt + 1·cached + 30·completion` (ms); each has a single nonzero
token count, so `XᵗX` is diagonal. -/
def w8 : List (Option CompletionResult) :=
  [some ⟨1, 0, 0, 2000000⟩, some ⟨2, 0, 0, 4000000⟩, some ⟨3, 0, 0, 6000000⟩,
   some ⟨0, 1, 0, 1000000⟩, some ⟨0, 2, 0, 2000000⟩, some ⟨0, 0, 1, 30000000⟩,
   some ⟨0, 0, 2, 60000000⟩, some ⟨0, 0, 3, 90000000⟩]

/-- The fit on `w8`: exact rates 2, 1 and 30 ms/token with R² = 1. -/
def wFit : ModelFitResult :=
  { promptRate := 2, cachedPromptRate := 1, completionRate := 30, rSquared := 1 }

/-- The intermediate matrices of the elimination on `w8`: the diagonal
`XᵗX = diag(14, 5, 14)` next to `Xᵗy = (28, 5, 420)`, with rows 0, 1, 2
scaled by their pivots one after the other. -/
def w8T : Nat → Fin 3 → Fin 4 → ℚ :=
  fun k i c =>
    if c.val = 3 then
      (if i.val = 0 then (if k = 0 then 28 else 2)
       else if i.val = 1 then (if k ≤ 1 then 5 else 1)
       else (if k ≤ 2 then 420 else 30))
    else if i.val = c.val then
      (if i.val = 0 then (if k = 0 then 14 else 1)
       else if i.val = 1 then (if k ≤ 1 then 5 else 1)
       else (if k ≤ 2 then 14 else 1))
    else 0

/-- A probe config. -/
def wCfg : BenchmarkConfig := ⟨100, 1⟩

/-- A probe executor answering every config with the eight observations of
`w8`. -/
def wProbe : BenchmarkConfig → Option (List (Option CompletionResult)) := fun _ => some w8

/-- The non-nil observations of `w8`. -/
def w8rs : List CompletionResult := w8.filterMap id

/-- The values of `w8`. -/
def w8values : List CompletionResult := w8.filterMap id

/-- The retained map after inserting the eight observations of `w8`. -/
def wBest : SigMap :=
  [((1, 0, 0), ⟨1, 0, 0, 2000000⟩), ((2, 0, 0), ⟨2, 0, 0, 4000000⟩),
   ((3, 0, 0), ⟨3, 0, 0, 6000000⟩), ((0, 1, 0), ⟨0, 1, 0, 1000000⟩),
   ((0, 2, 0), ⟨0, 2, 0, 2000000⟩), ((0, 0, 1), ⟨0, 0, 1, 30000000⟩),
   ((0, 0, 2), ⟨0, 0, 2, 60000000⟩), ((0, 0, 3), ⟨0, 0, 3, 90000000⟩)]

/-- The controller state after processing `wCfg` with probe results `w8`. -/
def wSt : CtrlSt := { best := wBest, configsRun := [(100, 1)], trace := [wCfg] }

/-- Two fits with prompt rate 3 ms/token and completion rate 25 ms/token. -/
def goldenFits : List (Option ModelFitResult) :=
  [some ⟨3, 1/100, 25, 1/2⟩, some ⟨3, 1/100, 25, 1/2⟩]

/-- A driver whose `Setup` fails. -/
def failingDriver : DriverModel := { setupErr := some "boom", url := "", modelName := "" }

/-- A driver whose `Setup` succeeds. -/
def okDriver : DriverModel := { setupErr := none, url := "http://x", modelName := "m" }

/-- A benchmark outcome for instantiating `Run`. -/
def bench0 :
    String → String →
      List CompletionResult × Option ModelFitResult × Option ModelFitResult × Option String :=
  fun _ _ => ([], none, none, none)

/-- A matrix parameter whose value list repeats the same value. -/
def dupMatrix : List (String × ParameterConfig) :=
  [("k", { values := ["a", "a"], output := true })]

/-- A three-parameter matrix with distinct keys and duplicate-free value
lists, one of them empty. -/
def m10 : List (String × ParameterConfig) :=
  [("a", { values := ["1", "2"], output := true }),
   ("b", { values := [], output := true }),
   ("c", { values := ["x", "y", "z"], output := false })]

/-- A client answering the two calls of `RunWithPromptLength` with `wr1` and
`wr2` regardless of the request. -/
def wClient : ChatCompletionParams → Nat → Option CompletionResult :=
  fun _ n => if n = 0 then some wr1 else some wr2

/-! ### Properties of the retention map -/

theorem lookupSig_eq_none_iff (m : SigMap) (s : Int × Int × Int) :
    lookupSig m s = none ↔ s ∉ sigKeys m := by
  induction m with
  | nil => simp [lookupSig, sigKeys]
  | cons p rest ih =>
    obtain ⟨k, r⟩ := p
    by_cases hk : k = s
    · subst hk
      simp [lookupSig, sigKeys]
    · simp [lookupSig, hk, sigKeys, Ne.symm hk] at ih ⊢
      exact ih

theorem lookupSig_append_left (m l : SigMap) (s : Int × Int × Int) (r : CompletionResult)
    (h : lookupSig m s = some r) : lookupSig (m ++ l) s = some r := by
  induction m with
  | nil => simp [lookupSig] at h
  | cons p rest ih =>
    obtain ⟨k, r'⟩ := p
    by_cases hk : k = s
    · simp [lookupSig, hk] at h ⊢
      exact h
    · simp [lookupSig, hk] at h ⊢
      exact ih h

theorem lookupSig_append_right (m l : SigMap) (s : Int × Int × Int)
    (h : lookupSig m s = none) : lookupSig (m ++ l) s = lookupSig l s := by
  induction m with
  | nil => simp [lookupSig]
  | cons p rest ih =>
    obtain ⟨k, r'⟩ := p
    by_cases hk : k = s
    · simp [lookupSig, hk] at h
    · simp [lookupSig, hk] at h ⊢
      exact ih h

theorem sigKeys_replaceSig (m : SigMap) (s : Int × Int × Int) (v : CompletionResult) :
    sigKeys (replaceSig m s v) = sigKeys m := by
  induction m with
  | nil => rfl
  | cons p rest ih =>
    obtain ⟨k, r⟩ := p
    by_cases hk : k = s
    · subst hk
      simp [replaceSig, sigKeys] at ih ⊢
      exact ih
    · simp [replaceSig, hk, sigKeys] at ih ⊢
      exact ih

theorem lookupSig_replaceSig_ne (m : SigMap) (s s' : Int × Int × Int) (v : CompletionResult)
    (h : s' ≠ s) : lookupSig (replaceSig m s v) s' = lookupSig m s' := by
  induction m with
  | nil => rfl
  | cons p rest ih =>
    obtain ⟨k, r⟩ := p
    by_cases hk : k = s
    · subst hk
      simp [replaceSig, lookupSig, Ne.symm h]
      exact ih
    · by_cases hk' : k = s'
      · subst hk'
        simp [replaceSig, hk, lookupSig]
      · simp [replaceSig, hk, lookupSig, hk']
        exact ih

theorem lookupSig_replaceSig_self (m : SigMap) (s : Int × Int × Int)
    (v ex : CompletionResult) (h : lookupSig m s = some ex) :
    lookupSig (replaceSig m s v) s = some v := by
  induction m with
  | nil => simp [lookupSig] at h
  | cons p rest ih =>
    obtain ⟨k, r⟩ := p
    by_cases hk : k = s
    · subst hk
      simp [replaceSig, lookupSig]
    · simp [lookupSig, hk] at h
      simp [replaceSig, hk, lookupSig]
      exact ih h

theorem insertBest_of_none (m : SigMap) (x : CompletionResult)
    (h : lookupSig m (sigKey x) = none) : insertBest m x = m ++ [(sigKey x, x)] := by
  unfold insertBest
  rw [h]

theorem insertBest_of_lt (m : SigMap) (x ex : CompletionResult)
    (h : lookupSig m (sigKey x) = some ex) (ht : x.responseTime < ex.responseTime) :
    insertBest m x = replaceSig m (sigKey x) x := by
  unfold insertBest
  rw [h]
  exact if_pos ht

theorem insertBest_of_ge (m : SigMap) (x ex : CompletionResult)
    (h : lookupSig m (sigKey x) = some ex) (ht : ¬ x.responseTime < ex.responseTime) :
    insertBest m x = m := by
  unfold insertBest
  rw [h]
  exact if_neg ht

theorem sigKeys_insertBest_nodup (m : SigMap) (r : CompletionResult)
    (h : (sigKeys m).Nodup) : (sigKeys (insertBest m r)).Nodup := by
  cases hl : lookupSig m (sigKey r) with
  | none =>
    have hmem : sigKey r ∉ sigKeys m := (lookupSig_eq_none_iff m (sigKey r)).mp hl
    rw [insertBest_of_none m r hl]
    simpa [sigKeys, List.nodup_append] using And.intro h hmem
  | some ex =>
    by_cases ht : r.responseTime < ex.responseTime
    · rw [insertBest_of_lt m r ex hl ht, show sigKeys (replaceSig m (sigKey r) r) = sigKeys m
        from sigKeys_replaceSig m _ r]
      exact h
    · rw [insertBest_of_ge m r ex hl ht]
      exact h

theorem lookupSig_insertBest_preserves (m : SigMap) (x : CompletionResult)
    (s : Int × Int × Int) (h : ∃ r, lookupSig m s = some r) :
    ∃ r, lookupSig (insertBest m x) s = some r := by
  obtain ⟨r, hr⟩ := h
  cases hl : lookupSig m (sigKey x) with
  | none =>
    rw [insertBest_of_none m x hl]
    exact ⟨r, lookupSig_append_left m _ s r hr⟩
  | some ex =>
    by_cases ht : x.responseTime < ex.responseTime
    · rw [insertBest_of_lt m x ex hl ht]
      by_cases hs : s = sigKey x
      · subst hs
        exact ⟨x, lookupSig_replaceSig_self m _ x ex hl⟩
      · exact ⟨r, by rw [lookupSig_replaceSig_ne m _ s x hs]; exact hr⟩
    · rw [insertBest_of_ge m x ex hl ht]
      exact ⟨r, hr⟩

theorem buildBest_step (pre : List CompletionResult) (x : CompletionResult) :
    buildBest (pre ++ [x]) = insertBest (buildBest pre) x := by
  simp [buildBest, List.foldl_append]

theorem insertBest_inv (pre : List CompletionResult) (x : CompletionResult) (m : SigMap)
    (hinv : ∀ s r, lookupSig m s = some r →
      r ∈ pre ∧ sigKey r = s ∧ ∀ y ∈ pre, sigKey y = s → r.responseTime ≤ y.responseTime)
    (hall : ∀ y ∈ pre, ∃ r, lookupSig m (sigKey y) = some r) :
    ∀ s r, lookupSig (insertBest m x) s = some r →
      r ∈ pre ++ [x] ∧ sigKey r = s ∧
        ∀ y ∈ pre ++ [x], sigKey y = s → r.responseTime ≤ y.responseTime := by
  intro s r hr
  cases hl : lookupSig m (sigKey x) with
  | none =>
    rw [insertBest_of_none m x hl] at hr
    cases hm : lookupSig m s with
    | some r' =>
      rw [lookupSig_append_left m _ s r' hm] at hr
      obtain rfl : r' = r := by injection hr
      obtain ⟨hmem, hsig, hmin⟩ := hinv s r' hm
      refine ⟨List.mem_append_left _ hmem, hsig, ?_⟩
      intro y hy hys
      rcases List.mem_append.mp hy with hy | hy
      · exact hmin y hy hys
      · obtain rfl := List.mem_singleton.mp hy
        exfalso
        rw [hys] at hl
        rw [hm] at hl
        exact Option.noConfusion hl
    | none =>
      rw [lookupSig_append_right m _ s hm] at hr
      by_cases hs : sigKey x = s
      · simp only [lookupSig, if_pos hs] at hr
        obtain rfl : x = r := by injection hr
        refine ⟨List.mem_append_right _ (by simp), hs, ?_⟩
        intro y hy hys
        rcases List.mem_append.mp hy with hy | hy
        · exfalso
          obtain ⟨r'', hr''⟩ := hall y hy
          rw [hys, hm] at hr''
          exact Option.noConfusion hr''
        · obtain rfl := List.mem_singleton.mp hy
          exact le_refl _
      · simp only [lookupSig, if_neg hs] at hr
        exact Option.noConfusion hr
  | some ex =>
    by_cases ht : x.responseTime < ex.responseTime
    · rw [insertBest_of_lt m x ex hl ht] at hr
      by_cases hs : s = sigKey x
      · subst hs
        rw [lookupSig_replaceSig_self m _ x ex hl] at hr
        obtain rfl : x = r := by injection hr
        refine ⟨List.mem_append_right _ (by simp), rfl, ?_⟩
        intro y hy hys
        rcases List.mem_append.mp hy with hy | hy
        · obtain ⟨hexm, hexs, hexmin⟩ := hinv (sigKey x) ex hl
          exact le_trans (le_of_lt ht) (hexmin y hy hys)
        · obtain rfl := List.mem_singleton.mp hy
          exact le_refl _
      · rw [lookupSig_replaceSig_ne m _ s x hs] at hr
        obtain ⟨hmem, hsig, hmin⟩ := hinv s r hr
        refine ⟨List.mem_append_left _ hmem, hsig, ?_⟩
        intro y hy hys
        rcases List.mem_append.mp hy with hy | hy
        · exact hmin y hy hys
        · obtain rfl := List.mem_singleton.mp hy
          exact absurd hys.symm hs
    · rw [insertBest_of_ge m x ex hl ht] at hr
      obtain ⟨hmem, hsig, hmin⟩ := hinv s r hr
      refine ⟨List.mem_append_left _ hmem, hsig, ?_⟩
      intro y hy hys
      rcases List.mem_append.mp hy with hy | hy
      · exact hmin y hy hys
      · obtain rfl := List.mem_singleton.mp hy
        obtain rfl : s = sigKey y := hys.symm
        rw [hl] at hr
        obtain rfl : ex = r := by injection hr
        exact le_of_not_lt ht

theorem buildBest_sound (rs : List CompletionResult) :
    ((∀ s r, lookupSig (buildBest rs) s = some r →
        r ∈ rs ∧ sigKey r = s ∧ ∀ y ∈ rs, sigKey y = s → r.responseTime ≤ y.responseTime)
      ∧ (∀ y ∈ rs, ∃ r, lookupSig (buildBest rs) (sigKey y) = some r))
    ∧ (sigKeys (buildBest rs)).Nodup := by
  induction rs using List.reverseRecOn with
  | nil =>
    refine ⟨⟨?_, ?_⟩, ?_⟩
    · intro s r hr
      simp [buildBest, lookupSig] at hr
    · intro y hy
      simp at hy
    · simp [buildBest, sigKeys]
  | append_singleton pre x ih =>
    obtain ⟨⟨hinv, hall⟩, hnd⟩ := ih
    rw [buildBest_step pre x]
    refine ⟨⟨insertBest_inv pre x (buildBest pre) hinv hall, ?_⟩, ?_⟩
    · intro y hy
      rcases List.mem_append.mp hy with hy | hy
      · exact lookupSig_insertBest_preserves _ x _ (hall y hy)
      · obtain rfl := List.mem_singleton.mp hy
        cases hl : lookupSig (buildBest pre) (sigKey y) with
        | none =>
          refine ⟨y, ?_⟩
          rw [insertBest_of_none _ y hl, lookupSig_append_right _ _ _ hl]
          simp [lookupSig]
        | some ex =>
          by_cases ht : y.responseTime < ex.responseTime
          · rw [insertBest_of_lt _ y ex hl ht]
            exact ⟨y, lookupSig_replaceSig_self _ _ y ex hl⟩
          · rw [insertBest_of_ge _ y ex hl ht]
            exact ⟨ex, hl⟩
    · exact sigKeys_insertBest_nodup _ x hnd

/-- Claim C1: within one context-class run the retained-results map holds at
most one observation per token signature (its key list has no duplicates),
the retained observation for a signature is one of the processed results
with that signature and has minimal response time among them, and a single
insertion leaves the map unchanged when the incoming result is not strictly
faster than the retained one while a strictly faster result replaces it. -/
theorem retention_map_invariant (rs : List CompletionResult) (m : SigMap)
    (result existing : CompletionResult) :
    ((sigKeys (buildBest rs)).Nodup
      ∧ ∀ s r, lookupSig (buildBest rs) s = some r →
          r ∈ rs ∧ sigKey r = s ∧ ∀ y ∈ rs, sigKey y = s → r.responseTime ≤ y.responseTime)
    ∧ (lookupSig m (sigKey result) = some existing →
        (¬ result.responseTime < existing.responseTime → insertBest m result = m)
        ∧ (result.responseTime < existing.responseTime →
            lookupSig (insertBest m result) (sigKey result) = some result)) := by
  refine ⟨⟨(buildBest_sound rs).2, (buildBest_sound rs).1.1⟩, ?_⟩
  intro hl
  constructor
  · intro ht
    exact insertBest_of_ge m result existing hl ht
  · intro ht
    rw [insertBest_of_lt m result existing hl ht]
    exact lookupSig_replaceSig_self m _ result existing hl

/-- Closed instantiation of `retention_map_invariant`: inserting the slower
`wrSlow` into the map retaining `wr1` changes nothing, and inserting the
strictly faster `wr2` replaces the retained observation. -/
theorem retention_map_invariant_witness :
    insertBest (buildBest [wr1]) wrSlow = buildBest [wr1]
    ∧ lookupSig (insertBest (buildBest [wr1]) wr2) (sigKey wr2) = some wr2 := by
  constructor
  · exact ((retention_map_invariant [wr1] (buildBest [wr1]) wrSlow wr1).2
      (by decide)).1 (by decide)
  · exact ((retention_map_invariant [wr1] (buildBest [wr1]) wr2 wr1).2
      (by decide)).2 (by decide)


/-! ### The singular fallback of the regression fitter -/

theorem mathAbs_eq_abs (x : ℚ) : mathAbs x = |x| := by
  unfold mathAbs
  split_ifs with h
  · exact (abs_of_neg h).symm
  · exact (abs_of_nonneg (not_lt.mp h)).symm

theorem mathAbs_zero : mathAbs 0 = 0 := by simp [mathAbs]

theorem eps_pos : (0 : ℚ) < eps := by norm_num [eps]

theorem hasZeroColumn_of_col (m : Fin 3 → Fin 3 → ℚ) (j : Fin 3)
    (h : ∀ i, m i j = 0) : hasZeroColumn m = true := by
  unfold hasZeroColumn
  rw [List.any_eq_true]
  refine ⟨j, List.mem_finRange j, ?_⟩
  unfold colAllZeros
  rw [List.all_eq_true]
  intro i _
  rw [h i, mathAbs_zero]
  simp only [Bool.not_eq_eq_eq_not, Bool.not_true, decide_eq_false_iff_not]
  exact not_lt.mpr (le_of_lt eps_pos)

theorem foldl_pivot_ge (aug : Fin 3 → Fin 4 → ℚ) (i : Fin 3) (l : List (Fin 3)) (b : Fin 3) :
    mathAbs (aug b i.castSucc) ≤
      mathAbs (aug (l.foldl (fun maxRow j =>
        if mathAbs (aug j i.castSucc) > mathAbs (aug maxRow i.castSucc) then j else maxRow) b)
        i.castSucc) := by
  induction l generalizing b with
  | nil => exact le_refl _
  | cons j rest ih =>
    simp only [List.foldl_cons]
    by_cases h : mathAbs (aug j i.castSucc) > mathAbs (aug b i.castSucc)
    · rw [if_pos h]
      exact le_trans (le_of_lt h) (ih j)
    · rw [if_neg h]
      exact ih b

theorem findPivotRow_ge (aug : Fin 3 → Fin 4 → ℚ) (i : Fin 3) :
    mathAbs (aug i i.castSucc) ≤ mathAbs (aug (findPivotRow aug i) i.castSucc) := by
  unfold findPivotRow
  exact foldl_pivot_ge aug i _ i

theorem geStep_zero_rank1 (g : Fin 3 → ℚ) (u : Fin 4 → ℚ)
    (hge : eps ≤ mathAbs (g 0 * u 0)) :
    ∃ B, geStep (fun r c => g r * u c) 0 = some B ∧ (∀ c, B 1 c = 0) ∧ ∀ c, B 2 c = 0 := by
  have hc0 : (0 : Fin 3).castSucc = (0 : Fin 4) := by decide
  set A : Fin 3 → Fin 4 → ℚ := fun r c => g r * u c with hA
  set m := findPivotRow A 0 with hm
  set f : Fin 3 → ℚ := fun r => if r = 0 then g m else if r = m then g 0 else g r with hf
  have hswap : ∀ r c, pivotedOf A 0 r c = f r * u c := by
    intro r c
    unfold pivotedOf swapRows
    rw [← hm]
    by_cases h1 : r = 0
    · simp [h1, hf, hA]
    · by_cases h2 : r = m
      · simp [h1, h2, hf, hA]
      · simp [h1, h2, hf, hA]
  have hpivval : pivotedOf A 0 0 ((0 : Fin 3).castSucc) = f 0 * u 0 := by
    rw [hswap 0 ((0 : Fin 3).castSucc), hc0]
  have hge' : eps ≤ mathAbs (f 0 * u 0) := by
    have h1 : mathAbs (A 0 ((0 : Fin 3).castSucc)) ≤ mathAbs (A m ((0 : Fin 3).castSucc)) := by
      rw [hm]
      exact findPivotRow_ge A 0
    have h2 : A 0 ((0 : Fin 3).castSucc) = g 0 * u 0 := by rw [hc0]
    have h3 : A m ((0 : Fin 3).castSucc) = f 0 * u 0 := by
      rw [hc0, show f 0 = g m from by simp [hf]]
    calc eps ≤ mathAbs (g 0 * u 0) := hge
      _ = mathAbs (A 0 ((0 : Fin 3).castSucc)) := by rw [h2]
      _ ≤ mathAbs (A m ((0 : Fin 3).castSucc)) := h1
      _ = mathAbs (f 0 * u 0) := by rw [h3]
  have hne : f 0 * u 0 ≠ 0 := by
    intro h0
    rw [h0, mathAbs_zero] at hge'
    exact absurd hge' (not_le.mpr eps_pos)
  have hf0 : f 0 ≠ 0 := left_ne_zero_of_mul hne
  have hu0 : u 0 ≠ 0 := right_ne_zero_of_mul hne
  have hnotlt : ¬ mathAbs (pivotedOf A 0 0 ((0 : Fin 3).castSucc)) < eps := by
    rw [hpivval]
    exact not_lt.mpr hge'
  have hscaled_ne : ∀ r, r ≠ 0 → ∀ c, scaledOf A 0 r c = f r * u c := by
    intro r hr c
    unfold scaledOf
    rw [if_neg (by simp [hr])]
    exact hswap r c
  have hscaled_0 : ∀ c, scaledOf A 0 0 c = (f 0 * u c) / (f 0 * u 0) := by
    intro c
    unfold scaledOf
    rw [if_pos ⟨rfl, by simp⟩, hswap 0 c, hpivval]
  have hrows : ∀ r, r ≠ 0 → ∀ c, elimOf A 0 r c = 0 := by
    intro r hr c
    unfold elimOf
    rw [if_pos ⟨hr, by simp⟩, hscaled_ne r hr c, hscaled_ne r hr ((0 : Fin 3).castSucc),
      hscaled_0 c, hc0]
    field_simp
    ring
  refine ⟨elimOf A 0, ?_, fun c => hrows 1 (by decide) c, fun c => hrows 2 (by decide) c⟩
  unfold geStep
  rw [if_neg hnotlt]

theorem geStep_one_none (B : Fin 3 → Fin 4 → ℚ)
    (h1 : ∀ c, B 1 c = 0) (h2 : ∀ c, B 2 c = 0) : geStep B 1 = none := by
  have hfilter : (List.finRange 3).filter (fun j => decide ((1 : Fin 3) < j)) = [2] := by decide
  have hpr : findPivotRow B 1 = 1 := by
    unfold findPivotRow
    rw [hfilter]
    simp only [List.foldl_cons, List.foldl_nil]
    rw [if_neg]
    rw [h1, h2]
    simp
  have hval : mathAbs (pivotedOf B 1 1 ((1 : Fin 3).castSucc)) < eps := by
    unfold pivotedOf
    rw [hpr]
    have hsw : swapRows B 1 1 1 ((1 : Fin 3).castSucc) = B 1 ((1 : Fin 3).castSucc) := by
      unfold swapRows
      simp
    rw [hsw, h1, mathAbs_zero]
    exact eps_pos
  unfold geStep
  rw [if_pos hval]

theorem xtxOf_const (rs : List CompletionResult) (v : Fin 3 → ℚ)
    (hrow : ∀ x ∈ rs, obsRow x = v) (i j : Fin 3) :
    xtxOf rs i j = (rs.length : ℚ) * (v i * v j) := by
  unfold xtxOf
  rw [List.sum_eq_card_nsmul _ (v i * v j)]
  · simp [nsmul_eq_mul]
  · intro x hx
    obtain ⟨r, hr, rfl⟩ := List.mem_map.mp hx
    rw [hrow r hr]

theorem xtyOf_const (rs : List CompletionResult) (v : Fin 3 → ℚ)
    (hrow : ∀ x ∈ rs, obsRow x = v) (i : Fin 3) :
    xtyOf rs i = v i * (rs.map responseMs).sum := by
  unfold xtyOf
  rw [show (rs.map fun r => obsRow r i * responseMs r) = rs.map fun r => v i * responseMs r
      from List.map_congr_left (fun r hr => by rw [hrow r hr]),
    List.sum_map_mul_left]

theorem augmentedOf_const (rs : List CompletionResult) (v : Fin 3 → ℚ)
    (hrow : ∀ x ∈ rs, obsRow x = v) :
    augmentedOf rs = fun i c => v i *
      (if h : c.val < 3 then (rs.length : ℚ) * v ⟨c.val, h⟩ else (rs.map responseMs).sum) := by
  funext i c
  unfold augmentedOf
  by_cases h : c.val < 3
  · rw [dif_pos h, dif_pos h, xtxOf_const rs v hrow]
    ring
  · rw [dif_neg h, dif_neg h, xtyOf_const rs v hrow]

theorem identical_sig_singular (rs : List CompletionResult)
    (hid : ∀ x ∈ rs, ∀ y ∈ rs, sigKey x = sigKey y) :
    hasZeroColumn (xtxOf rs) = true ∨ geSolve (augmentedOf rs) = none := by
  cases rs with
  | nil =>
    left
    exact hasZeroColumn_of_col _ 0 (fun i => rfl)
  | cons r0 rest =>
    have hrow : ∀ x ∈ r0 :: rest, obsRow x = obsRow r0 := by
      intro x hx
      have hsig := hid x hx r0 (by simp)
      obtain ⟨e1, e2, e3⟩ : x.promptTokens = r0.promptTokens ∧
          x.cachedPromptTokens = r0.cachedPromptTokens ∧
          x.completionTokens = r0.completionTokens := by
        simpa [sigKey, Prod.ext_iff] using hsig
      funext i
      fin_cases i <;> simp [obsRow, e1, e2, e3]
    set v : Fin 3 → ℚ := obsRow r0 with hv
    by_cases hz : ∃ j, v j = 0
    · left
      obtain ⟨j, hj⟩ := hz
      refine hasZeroColumn_of_col _ j (fun i => ?_)
      rw [xtxOf_const _ v hrow, hj]
      ring
    · right
      push_neg at hz
      set n : ℚ := (((r0 :: rest).length : Nat) : ℚ) with hn
      set S : ℚ := ((r0 :: rest).map responseMs).sum with hS
      have haug : augmentedOf (r0 :: rest) =
          fun i c => v i * (if h : c.val < 3 then n * v ⟨c.val, h⟩ else S) :=
        augmentedOf_const _ v hrow
      have h1n : (1 : ℚ) ≤ n := by
        rw [hn]
        exact_mod_cast Nat.succ_le_succ (Nat.zero_le _)
      have hv0 : (1 : ℚ) ≤ |v 0| := by
        have hne : v 0 ≠ 0 := hz 0
        have hvdef : v 0 = ((r0.promptTokens : ℤ) : ℚ) := by rw [hv]; rfl
        rw [hvdef] at hne ⊢
        rw [← Int.cast_abs]
        exact_mod_cast Int.one_le_abs (by exact_mod_cast hne)
      set u : Fin 4 → ℚ := fun c => if h : c.val < 3 then n * v ⟨c.val, h⟩ else S with hu
      have hu0 : u 0 = n * v 0 := rfl
      have hge : eps ≤ mathAbs (v 0 * u 0) := by
        rw [hu0, mathAbs_eq_abs, abs_mul, abs_mul,
          abs_of_nonneg (le_trans zero_le_one h1n)]
        have heps1 : eps ≤ 1 := by norm_num [eps]
        refine le_trans heps1 ?_
        have h2 : 1 * (1 * 1) ≤ |v 0| * (n * |v 0|) :=
          mul_le_mul hv0 (mul_le_mul h1n hv0 zero_le_one (le_trans zero_le_one h1n))
            (by norm_num) (abs_nonneg _)
        linarith
      obtain ⟨B, hB, hB1, hB2⟩ := geStep_zero_rank1 v u hge
      unfold geSolve
      rw [haug]
      rw [show (fun i c => v i * (if h : c.val < 3 then n * v ⟨c.val, h⟩ else S)) =
          fun r c => v r * u c from rfl, hB]
      rw [Option.some_bind, geStep_one_none B hB1 hB2, Option.none_bind]

theorem fit_of_singular (results : List (Option CompletionResult))
    (h2 : 2 ≤ results.length)
    (hcond : hasZeroColumn (xtxOf (results.filterMap id)) = true
      ∨ geSolve (augmentedOf (results.filterMap id)) = none) :
    fitCompletionTimeModel results = fallbackFit := by
  have hnot : ¬ results.length < 2 := not_lt.mpr h2
  unfold fitCompletionTimeModel
  rcases hcond with hz | hg
  · simp [hnot, hz]
  · by_cases hzc : hasZeroColumn (xtxOf (results.filterMap id)) = true
    · simp [hnot, hzc]
    · simp only [Bool.not_eq_true] at hzc
      simp [hnot, hzc, hg]

/-- Claim C2, amended with the precondition the counterexample forces: for
every list of at least 2 entries given to the fitter, if an entire column of
`XᵗX` is within 1e-10 of zero, or the elimination aborts on a pivot within
1e-10 of zero after the partial-pivoting row swap, the fitter returns exactly
the fallback fit (3 ms/prompt token, 0.01 ms/cached token, 25 ms/completion
token, R² = 0.5); in particular any such input whose observations all carry
the identical token-count triple takes this fallback path. -/
theorem fit_singular_fallback (results : List (Option CompletionResult))
    (h2 : 2 ≤ results.length) :
    ((hasZeroColumn (xtxOf (results.filterMap id)) = true
        ∨ geSolve (augmentedOf (results.filterMap id)) = none) →
      fitCompletionTimeModel results = fallbackFit)
    ∧ ((∀ x ∈ results.filterMap id, ∀ y ∈ results.filterMap id, sigKey x = sigKey y) →
      fitCompletionTimeModel results = fallbackFit) :=
  ⟨fit_of_singular results h2,
   fun hid => fit_of_singular results h2 (identical_sig_singular _ hid)⟩

/-- Counterexample to claim C2 as stated: the empty observation list
satisfies both antecedents of the claim (its `XᵗX` is the zero matrix, and
all of its observations vacuously carry identical token counts), yet the
fitter returns the degenerate zero fit of the `len < 2` guard, not the
fallback fit. -/
theorem fit_singular_counterexample :
    hasZeroColumn (xtxOf (([] : List (Option CompletionResult)).filterMap id)) = true
    ∧ fitCompletionTimeModel [] = zeroFit
    ∧ zeroFit ≠ fallbackFit := by
  refine ⟨hasZeroColumn_of_col _ 0 (fun i => rfl), rfl, ?_⟩
  intro h
  have h3 : zeroFit.promptRate = fallbackFit.promptRate := by rw [h]
  norm_num [zeroFit, fallbackFit] at h3

/-- Closed instantiation of `fit_singular_fallback`: two observations with
the identical signature `(10, 3, 5)` produce the fallback fit. -/
theorem fit_singular_fallback_witness :
    fitCompletionTimeModel cIdentical = fallbackFit :=
  (fit_singular_fallback cIdentical (by decide)).2 (by decide)

/-! ### The fitter on the concrete inputs: elimination over diagonal systems -/

theorem mathAbs_nonneg (x : ℚ) : 0 ≤ mathAbs x := by
  unfold mathAbs
  split_ifs with h
  · linarith
  · linarith [not_lt.mp h]

theorem foldl_pivot_stay (M : Fin 3 → Fin 4 → ℚ) (i : Fin 3)
    (h : ∀ j, ¬ (mathAbs (M j i.castSucc) > mathAbs (M i i.castSucc))) (l : List (Fin 3)) :
    l.foldl (fun maxRow j =>
      if mathAbs (M j i.castSucc) > mathAbs (M maxRow i.castSucc) then j else maxRow) i = i := by
  induction l with
  | nil => rfl
  | cons j rest ih =>
    simp only [List.foldl_cons]
    rw [if_neg (h j)]
    exact ih

theorem geStep_diag (M : Fin 3 → Fin 4 → ℚ) (i : Fin 3)
    (hdiag : eps ≤ mathAbs (M i i.castSucc))
    (hcol : ∀ r, r ≠ i → M r i.castSucc = 0) :
    geStep M i = some (fun r c =>
      if r = i ∧ i.val ≤ c.val then M r c / M i i.castSucc else M r c) := by
  have hfind : findPivotRow M i = i := by
    unfold findPivotRow
    apply foldl_pivot_stay
    intro j
    by_cases hj : j = i
    · rw [hj]
      exact lt_irrefl _
    · rw [hcol j hj, mathAbs_zero]
      exact not_lt.mpr (mathAbs_nonneg _)
  have hpiv : pivotedOf M i = M := by
    unfold pivotedOf
    rw [hfind]
    funext r c
    unfold swapRows
    split_ifs with h1
    · rw [h1]
    · rfl
  have hguard : ¬ mathAbs (pivotedOf M i i i.castSucc) < eps := by
    rw [hpiv]
    exact not_lt.mpr hdiag
  have hscaled : scaledOf M i = fun r c =>
      if r = i ∧ i.val ≤ c.val then M r c / M i i.castSucc else M r c := by
    funext r c
    unfold scaledOf
    rw [hpiv]
  have helim : elimOf M i = fun r c =>
      if r = i ∧ i.val ≤ c.val then M r c / M i i.castSucc else M r c := by
    funext r c
    unfold elimOf
    simp only [hscaled]
    by_cases hr : r = i
    · subst hr
      simp
    · by_cases hc : i.val ≤ c.val
      · simp [hr, hc, hcol r hr]
      · simp [hr, hc]
  unfold geStep
  rw [if_neg hguard, helim]

theorem finRange_three : List.finRange 3 = [0, 1, 2] := rfl

theorem xtxOf_c3 : xtxOf c3rs = fun i j => if i.val = j.val then 1 else 0 := by
  funext i j
  fin_cases i <;> fin_cases j <;>
    norm_num [xtxOf, c3rs, c3Input, obsRow, List.filterMap_cons, List.filterMap_nil,
      List.map_cons, List.map_nil, List.sum_cons, List.sum_nil]

theorem augmentedOf_c3 : augmentedOf c3rs = c3Table := by
  funext i c
  fin_cases i <;> fin_cases c <;>
    norm_num [augmentedOf, xtxOf, xtyOf, c3rs, c3Input, obsRow, responseMs, c3Table,
      List.filterMap_cons, List.filterMap_nil,
      List.map_cons, List.map_nil, List.sum_cons, List.sum_nil,
      show Int.tdiv 5000000 1000000 = 5 from rfl,
      show Int.tdiv 4000000 1000000 = 4 from rfl]

theorem geSolve_c3 : geSolve (augmentedOf c3rs) = some c3Table := by
  have hd : ∀ i : Fin 3, eps ≤ mathAbs (c3Table i i.castSucc) := by
    intro i
    fin_cases i <;> norm_num [c3Table, mathAbs, eps]
  have hc : ∀ i : Fin 3, ∀ r, r ≠ i → c3Table r i.castSucc = 0 := by
    intro i r hr
    fin_cases i <;> fin_cases r <;> simp_all <;> norm_num [c3Table]
  have hL : ∀ i : Fin 3, (fun r c =>
      if r = i ∧ i.val ≤ c.val then c3Table r c / c3Table i i.castSucc else c3Table r c)
        = c3Table := by
    intro i
    funext r c
    fin_cases i <;> fin_cases r <;> fin_cases c <;> norm_num [c3Table]
  rw [augmentedOf_c3]
  unfold geSolve
  rw [geStep_diag c3Table 0 (hd 0) (hc 0), Option.some_bind, hL 0,
    geStep_diag c3Table 1 (hd 1) (hc 1), Option.some_bind, hL 1,
    geStep_diag c3Table 2 (hd 2) (hc 2), hL 2]

theorem hasZeroColumn_c3 : hasZeroColumn (xtxOf c3rs) = false := by
  rw [xtxOf_c3]
  norm_num [hasZeroColumn, colAllZeros, finRange_three, mathAbs, eps]

theorem fit_c3_eval : fitCompletionTimeModel c3Input =
    { promptRate := 5, cachedPromptRate := 5, completionRate := 5, rSquared := -61/3 } := by
  have hrs : c3Input.filterMap id = c3rs := rfl
  unfold fitCompletionTimeModel
  rw [if_neg (by norm_num [c3Input] : ¬ c3Input.length < 2), hrs]
  simp only [hasZeroColumn_c3, Bool.false_eq_true, if_false]
  rw [geSolve_c3]
  norm_num [c3rs, c3Input, c3Table, mathMax, obsRow, responseMs,
    List.filterMap_cons, List.filterMap_nil, List.map_cons, List.map_nil,
    List.sum_cons, List.sum_nil, List.length_cons,
    show Int.tdiv 5000000 1000000 = 5 from rfl,
    show Int.tdiv 4000000 1000000 = 4 from rfl,
    show ((3 : Fin 4)).val = 3 from rfl]

/-- Claim C3 names a property the code violates: `c3Input` has 4 points, its
`XᵗX` passes the zero-column check and the elimination succeeds (no
near-zero pivot), the returned rates respect their floors, yet the returned
`rSquared` is `-61/3`, strictly below the claimed interval `[0, 1]` (the
source documents the field as "goodness of fit (0-1)"). -/
theorem fit_rsquared_out_of_range :
    4 ≤ c3Input.length
    ∧ hasZeroColumn (xtxOf (c3Input.filterMap id)) = false
    ∧ (geSolve (augmentedOf (c3Input.filterMap id))).isSome = true
    ∧ (1/100 : ℚ) ≤ (fitCompletionTimeModel c3Input).promptRate
    ∧ (1/1000 : ℚ) ≤ (fitCompletionTimeModel c3Input).cachedPromptRate
    ∧ (1/10 : ℚ) ≤ (fitCompletionTimeModel c3Input).completionRate
    ∧ (fitCompletionTimeModel c3Input).rSquared < 0 := by
  have hrs : c3Input.filterMap id = c3rs := rfl
  refine ⟨by norm_num [c3Input], ?_, ?_, ?_, ?_, ?_, ?_⟩
  · rw [hrs]
    exact hasZeroColumn_c3
  · rw [hrs, geSolve_c3]
    rfl
  · rw [fit_c3_eval]
    norm_num
  · rw [fit_c3_eval]
    norm_num
  · rw [fit_c3_eval]
    norm_num
  · rw [fit_c3_eval]
    norm_num

/-! ### The adaptive controller: early stop -/

theorem xtxOf_w8 : xtxOf w8rs = fun i j =>
    if i.val = j.val then (if i.val = 0 then 14 else if i.val = 1 then 5 else 14) else 0 := by
  funext i j
  fin_cases i <;> fin_cases j <;>
    norm_num [xtxOf, w8rs, w8, obsRow, List.filterMap_cons, List.filterMap_nil,
      List.map_cons, List.map_nil, List.sum_cons, List.sum_nil]

theorem augmentedOf_w8 : augmentedOf w8rs = w8T 0 := by
  funext i c
  fin_cases i <;> fin_cases c <;>
    norm_num [augmentedOf, xtxOf, xtyOf, w8rs, w8, obsRow, responseMs, w8T,
      List.filterMap_cons, List.filterMap_nil,
      List.map_cons, List.map_nil, List.sum_cons, List.sum_nil,
      show Int.tdiv 1000000 1000000 = 1 from rfl,
      show Int.tdiv 2000000 1000000 = 2 from rfl,
      show Int.tdiv 4000000 1000000 = 4 from rfl,
      show Int.tdiv 6000000 1000000 = 6 from rfl,
      show Int.tdiv 30000000 1000000 = 30 from rfl,
      show Int.tdiv 60000000 1000000 = 60 from rfl,
      show Int.tdiv 90000000 1000000 = 90 from rfl]

theorem geSolve_w8 : geSolve (augmentedOf w8rs) = some (w8T 3) := by
  have hd0 : eps ≤ mathAbs (w8T 0 0 ((0 : Fin 3).castSucc)) := by
    norm_num [w8T, mathAbs, eps]
  have hd1 : eps ≤ mathAbs (w8T 1 1 ((1 : Fin 3).castSucc)) := by
    norm_num [w8T, mathAbs, eps]
  have hd2 : eps ≤ mathAbs (w8T 2 2 ((2 : Fin 3).castSucc)) := by
    norm_num [w8T, mathAbs, eps]
  have hc0 : ∀ r, r ≠ (0 : Fin 3) → w8T 0 r ((0 : Fin 3).castSucc) = 0 := by
    intro r hr
    fin_cases r <;> simp_all [Fin.castSucc_mk] <;> norm_num [w8T]
  have hc1 : ∀ r, r ≠ (1 : Fin 3) → w8T 1 r ((1 : Fin 3).castSucc) = 0 := by
    intro r hr
    fin_cases r <;> simp_all [Fin.castSucc_mk] <;> norm_num [w8T]
  have hc2 : ∀ r, r ≠ (2 : Fin 3) → w8T 2 r ((2 : Fin 3).castSucc) = 0 := by
    intro r hr
    fin_cases r <;> simp_all [Fin.castSucc_mk] <;> norm_num [w8T]
  have hL0 : (fun r c => if r = (0 : Fin 3) ∧ (0 : Fin 3).val ≤ c.val then
      w8T 0 r c / w8T 0 0 ((0 : Fin 3).castSucc) else w8T 0 r c) = w8T 1 := by
    funext r c
    fin_cases r <;> fin_cases c <;> norm_num [w8T, Fin.ext_iff, Fin.castSucc_mk]
  have hL1 : (fun r c => if r = (1 : Fin 3) ∧ (1 : Fin 3).val ≤ c.val then
      w8T 1 r c / w8T 1 1 ((1 : Fin 3).castSucc) else w8T 1 r c) = w8T 2 := by
    funext r c
    fin_cases r <;> fin_cases c <;> norm_num [w8T, Fin.ext_iff, Fin.castSucc_mk]
  have hL2 : (fun r c => if r = (2 : Fin 3) ∧ (2 : Fin 3).val ≤ c.val then
      w8T 2 r c / w8T 2 2 ((2 : Fin 3).castSucc) else w8T 2 r c) = w8T 3 := by
    funext r c
    fin_cases r <;> fin_cases c <;> norm_num [w8T, Fin.ext_iff, Fin.castSucc_mk]
  rw [augmentedOf_w8]
  unfold geSolve
  rw [geStep_diag (w8T 0) 0 hd0 hc0, Option.some_bind, hL0,
    geStep_diag (w8T 1) 1 hd1 hc1, Option.some_bind, hL1,
    geStep_diag (w8T 2) 2 hd2 hc2, hL2]

theorem hasZeroColumn_w8 : hasZeroColumn (xtxOf w8rs) = false := by
  rw [xtxOf_w8]
  norm_num [hasZeroColumn, colAllZeros, finRange_three, mathAbs, eps]

theorem fit_w8_eval : fitCompletionTimeModel w8 = wFit := by
  have hrs : w8.filterMap id = w8rs := rfl
  unfold fitCompletionTimeModel
  rw [if_neg (by norm_num [w8] : ¬ w8.length < 2), hrs]
  simp only [hasZeroColumn_w8, Bool.false_eq_true, if_false]
  rw [geSolve_w8]
  norm_num [w8rs, w8, w8T, mathMax, obsRow, responseMs, wFit,
    List.filterMap_cons, List.filterMap_nil, List.map_cons, List.map_nil,
    List.sum_cons, List.sum_nil, List.length_cons,
    show Int.tdiv 1000000 1000000 = 1 from rfl,
    show Int.tdiv 2000000 1000000 = 2 from rfl,
    show Int.tdiv 4000000 1000000 = 4 from rfl,
    show Int.tdiv 6000000 1000000 = 6 from rfl,
    show Int.tdiv 30000000 1000000 = 30 from rfl,
    show Int.tdiv 60000000 1000000 = 60 from rfl,
    show Int.tdiv 90000000 1000000 = 90 from rfl,
    show ((3 : Fin 4)).val = 3 from rfl]


theorem processConfig_one_inl (probe : BenchmarkConfig → Option (List (Option CompletionResult)))
    (st st' : CtrlSt) (cfg : BenchmarkConfig)
    (h : processConfig probe 1 st cfg = Sum.inl st') :
    st'.trace = st.trace ++ [cfg] := by
  unfold processConfig at h
  rw [if_neg (by simp)] at h
  simp only [] at h
  cases he : earlyCheck (match probe cfg with
      | none => st.best
      | some results => insertResults st.best results) with
  | some out =>
    rw [he] at h
    exact absurd h (by simp)
  | none =>
    rw [he] at h
    injection h with h'
    rw [← h']

theorem processConfig_one_inr (probe : BenchmarkConfig → Option (List (Option CompletionResult)))
    (st st' : CtrlSt) (cfg : BenchmarkConfig) (res : List CompletionResult) (f : ModelFitResult)
    (h : processConfig probe 1 st cfg = Sum.inr (st', (res, f))) :
    st'.trace = st.trace ++ [cfg] ∧ 8 ≤ st'.best.length
    ∧ MinAcceptableRSquared ≤ f.rSquared ∧ res = bestValues st'.best := by
  unfold processConfig at h
  rw [if_neg (by simp)] at h
  simp only [] at h
  set B := (match probe cfg with
    | none => st.best
    | some results => insertResults st.best results) with hB
  cases he : earlyCheck B with
  | none =>
    rw [he] at h
    exact absurd h (by simp)
  | some out =>
    rw [he] at h
    injection h with h'
    have hst : CtrlSt.mk B (configKey cfg :: st.configsRun) (st.trace ++ [cfg]) = st' :=
      congrArg Prod.fst h'
    have hout : out = (res, f) := congrArg Prod.snd h'
    unfold earlyCheck at he
    by_cases h8 : 8 ≤ B.length
    · rw [if_pos h8] at he
      simp only [] at he
      by_cases hrq : MinAcceptableRSquared ≤
          (fitCompletionTimeModel ((bestValues B).map some)).rSquared
      · rw [if_pos hrq] at he
        injection he with he'
        rw [hout] at he'
        have hfeq : f = fitCompletionTimeModel ((bestValues B).map some) :=
          (congrArg Prod.snd he').symm
        have hreq : res = bestValues B := (congrArg Prod.fst he').symm
        subst hst
        refine ⟨rfl, by simpa using h8, ?_, by simpa using hreq⟩
        rw [hfeq]
        exact hrq
      · rw [if_neg hrq] at he
        exact absurd he (by simp)
    · rw [if_neg h8] at he
      exact absurd he (by simp)

theorem runIterConfigs_append (probe : BenchmarkConfig → Option (List (Option CompletionResult)))
    (it : Nat) (l1 l2 : List BenchmarkConfig) (st : CtrlSt) :
    runIterConfigs probe it (l1 ++ l2) st =
      match runIterConfigs probe it l1 st with
      | Sum.inl st' => runIterConfigs probe it l2 st'
      | Sum.inr e => Sum.inr e := by
  induction l1 generalizing st with
  | nil => rfl
  | cons c rest ih =>
    simp only [List.cons_append, runIterConfigs]
    cases processConfig probe it st c with
    | inl st' => exact ih st'
    | inr e => rfl

theorem runIterConfigs_one_trace (probe : BenchmarkConfig → Option (List (Option CompletionResult)))
    (l : List BenchmarkConfig) (st st' : CtrlSt)
    (h : runIterConfigs probe 1 l st = Sum.inl st') :
    st'.trace = st.trace ++ l := by
  induction l generalizing st with
  | nil =>
    simp only [runIterConfigs] at h
    injection h with h'
    rw [← h']
    simp
  | cons c rest ih =>
    simp only [runIterConfigs] at h
    cases hpc : processConfig probe 1 st c with
    | inl st1 =>
      rw [hpc] at h
      rw [ih st1 h, processConfig_one_inl probe st st1 c hpc]
      simp
    | inr e =>
      rw [hpc] at h
      exact absurd h (by simp)

/-- Claim C4: whenever, at some point of the first iteration (the only one
that executes probes), processing a config makes the early-stop check fire —
which by construction means the retained signature map has at least 8
entries and the fit on the retained set reaches
`MinAcceptableRSquared = 0.99` — the controller returns that fit together
with the retained observations at once: the whole run returns the early
result, and the executed trace is exactly the processed prefix followed by
the triggering config, so no further `ProbeConfig` is executed and the
`MaxBenchmarkIterations = 3` budget is not exhausted. -/
theorem controller_early_stop (probe : BenchmarkConfig → Option (List (Option CompletionResult)))
    (pre post : List BenchmarkConfig) (cfg : BenchmarkConfig)
    (st st' : CtrlSt) (res : List CompletionResult) (f : ModelFitResult)
    (hpre : runIterConfigs probe 1 pre initialCtrlSt = Sum.inl st)
    (hstep : processConfig probe 1 st cfg = Sum.inr (st', (res, f))) :
    runContextBenchmark probe (pre ++ cfg :: post) = (res, some f, pre ++ [cfg])
    ∧ 8 ≤ st'.best.length
    ∧ MinAcceptableRSquared ≤ f.rSquared
    ∧ res = bestValues st'.best := by
  obtain ⟨htr, h8, hrsq, hres⟩ := processConfig_one_inr probe st st' cfg res f hstep
  have htr0 : st.trace = pre := by
    simpa [initialCtrlSt] using runIterConfigs_one_trace probe pre initialCtrlSt st hpre
  have hrun : runIterConfigs probe 1 (pre ++ cfg :: post) initialCtrlSt
      = Sum.inr (st', (res, f)) := by
    rw [runIterConfigs_append, hpre]
    simp only [runIterConfigs]
    rw [hstep]
  refine ⟨?_, h8, hrsq, hres⟩
  unfold runContextBenchmark
  show runIterations probe (pre ++ cfg :: post) (2 + 1) 1 initialCtrlSt = _
  simp only [runIterations]
  rw [hrun]
  show (res, some f, st'.trace) = (res, some f, pre ++ [cfg])
  rw [htr, htr0]

theorem earlyCheck_w8 : earlyCheck wBest = some (w8values, wFit) := by
  unfold earlyCheck
  rw [if_pos (by decide : 8 ≤ wBest.length)]
  rw [show (bestValues wBest).map some = w8 from rfl, fit_w8_eval]
  rw [if_pos (by norm_num [MinAcceptableRSquared, wFit])]
  rfl

theorem processConfig_w8 :
    processConfig wProbe 1 initialCtrlSt wCfg = Sum.inr (wSt, (w8values, wFit)) := by
  unfold processConfig
  rw [if_neg (by simp)]
  simp only [wProbe]
  rw [show insertResults initialCtrlSt.best w8 = wBest from by decide]
  rw [earlyCheck_w8]
  rfl

/-- Closed instantiation of `controller_early_stop`: with a probe answering
every config with the eight exact-fit observations of `w8`, the controller
stops after the very first config of the first iteration, returning the
retained observations and the fit with R² = 1, having executed exactly that
one config. -/
theorem controller_early_stop_witness :
    runContextBenchmark wProbe [wCfg] = (w8values, some wFit, [wCfg])
    ∧ MinAcceptableRSquared ≤ wFit.rSquared := by
  have h := controller_early_stop wProbe [] [] wCfg initialCtrlSt wSt w8values wFit rfl
    processConfig_w8
  exact ⟨by simpa using h.1, h.2.2.1⟩


/-! ### Driver setup failure and the probe pair -/

theorem run_of_setup_err (bench : String → String →
      List CompletionResult × Option ModelFitResult × Option ModelFitResult × Option String)
    (e : String) (url modelName : String) :
    Run bench (some { setupErr := some e, url := url, modelName := modelName })
      = (([], none, none, some ("driver setup failed: " ++ e)), [DriverCall.setup]) := rfl

theorem run_of_setup_ok (bench : String → String →
      List CompletionResult × Option ModelFitResult × Option ModelFitResult × Option String)
    (url modelName : String) :
    Run bench (some { setupErr := none, url := url, modelName := modelName })
      = (bench url modelName,
         [DriverCall.setup, DriverCall.getURL, DriverCall.getModel,
          DriverCall.runScalingBenchmark, DriverCall.teardown]) := rfl

/-- Claim C5, amended as the counterexample forces: when the driver's setup
fails, `Run` returns the wrapped setup error for that parameter set — but
the teardown is NOT attempted, because `defer d.Teardown()` is registered
only after the setup error check; after a successful setup the teardown is
attempted (last driver call) regardless of the benchmark outcome. -/
theorem run_setup_failure (bench : String → String →
      List CompletionResult × Option ModelFitResult × Option ModelFitResult × Option String)
    (dm : DriverModel) :
    (∀ e, dm.setupErr = some e →
      Run bench (some dm)
        = (([], none, none, some ("driver setup failed: " ++ e)), [DriverCall.setup])
      ∧ DriverCall.teardown ∉ (Run bench (some dm)).2)
    ∧ (dm.setupErr = none → DriverCall.teardown ∈ (Run bench (some dm)).2) := by
  obtain ⟨se, url, mn⟩ := dm
  constructor
  · intro e he
    have hse : se = some e := he
    subst hse
    rw [run_of_setup_err]
    exact ⟨rfl, by simp⟩
  · intro he
    have hse : se = none := he
    subst hse
    rw [run_of_setup_ok]
    simp

/-- Counterexample to claim C5 as stated: with a driver whose setup fails,
`Run` does return an error, but the teardown is never attempted — `teardown`
is absent from the sequence of driver calls. -/
theorem run_teardown_counterexample :
    ((Run bench0 (some failingDriver)).1.2.2.2).isSome = true
    ∧ DriverCall.teardown ∉ (Run bench0 (some failingDriver)).2 := by
  exact ⟨rfl, by decide⟩

/-- Closed instantiation of `run_setup_failure` at the failing driver. -/
theorem run_setup_failure_witness :
    Run bench0 (some failingDriver)
      = (([], none, none, some ("driver setup failed: " ++ "boom")), [DriverCall.setup])
    ∧ DriverCall.teardown ∉ (Run bench0 (some failingDriver)).2 :=
  (run_setup_failure bench0 failingDriver).1 "boom" rfl

/-- Claim C8: with both chat-completion calls succeeding, the probe run
returns exactly two observations in order — the cold result as reported by
the server, then the cache-reuse result of re-issuing the identical request
(the same `mkChatParams` value, hence the same generated message content),
whose `cachedPromptTokens` is the prompt token count reported for that
second response and whose `promptTokens` is set to 0, with the remaining
fields untouched. -/
theorem runWithPromptLength_two_results
    (client : ChatCompletionParams → Nat → Option CompletionResult)
    (promptLength maxCompletionTokens : Int) (sfx randSeed : List Char)
    (r1 r2 : CompletionResult)
    (h1 : client (mkChatParams promptLength maxCompletionTokens sfx randSeed) 0 = some r1)
    (h2 : client (mkChatParams promptLength maxCompletionTokens sfx randSeed) 1 = some r2) :
    RunWithPromptLength client promptLength maxCompletionTokens sfx randSeed =
      some [r1, { r2 with cachedPromptTokens := r2.promptTokens, promptTokens := 0 }]
    ∧ ({ r2 with cachedPromptTokens := r2.promptTokens, promptTokens := 0 } : CompletionResult).cachedPromptTokens = r2.promptTokens
    ∧ ({ r2 with cachedPromptTokens := r2.promptTokens, promptTokens := 0 } : CompletionResult).promptTokens = 0
    ∧ ({ r2 with cachedPromptTokens := r2.promptTokens, promptTokens := 0 } : CompletionResult).completionTokens = r2.completionTokens
    ∧ ({ r2 with cachedPromptTokens := r2.promptTokens, promptTokens := 0 } : CompletionResult).responseTime = r2.responseTime := by
  refine ⟨?_, rfl, rfl, rfl, rfl⟩
  unfold RunWithPromptLength
  simp only []
  rw [h1, h2]

/-- Closed instantiation of `runWithPromptLength_two_results` at `wClient`. -/
theorem runWithPromptLength_witness :
    RunWithPromptLength wClient 5 7 [] ['a'] =
      some [wr1, { wr2 with cachedPromptTokens := wr2.promptTokens, promptTokens := 0 }] :=
  (runWithPromptLength_two_results wClient 5 7 [] ['a'] wr1 wr2 rfl rfl).1

/-! ### The composite score -/

theorem contribList_cons_none (rest : List (Option ModelFitResult)) :
    contribList (none :: rest) = contribList rest := by
  simp [contribList, List.filterMap_cons, contributes]

theorem contribList_cons_some (f : ModelFitResult) (rest : List (Option ModelFitResult)) :
    contribList (some f :: rest) =
      if 0 < f.promptRate ∧ 0 < f.completionRate then f :: contribList rest
      else contribList rest := by
  by_cases hf : 0 < f.promptRate ∧ 0 < f.completionRate
  · simp [contribList, List.filterMap_cons, contributes, hf]
  · simp [contribList, List.filterMap_cons, contributes, hf]

theorem accum_general (modelFits : List (Option ModelFitResult)) (a b : ℚ) (n : Nat) :
    modelFits.foldl
      (fun (acc : ℚ × ℚ × Nat) modelFit =>
        match modelFit with
        | some f =>
          if 0 < f.promptRate ∧ 0 < f.completionRate then
            (acc.1 + 1000 / f.promptRate, acc.2.1 + 1000 / f.completionRate, acc.2.2 + 1)
          else acc
        | none => acc)
      (a, b, n)
    = (a + ((contribList modelFits).map (fun f => 1000 / f.promptRate)).sum,
       b + ((contribList modelFits).map (fun f => 1000 / f.completionRate)).sum,
       n + (contribList modelFits).length) := by
  induction modelFits generalizing a b n with
  | nil => simp [contribList]
  | cons mf rest ih =>
    cases mf with
    | none =>
      simp only [List.foldl_cons, contribList_cons_none]
      exact ih a b n
    | some f =>
      by_cases hf : 0 < f.promptRate ∧ 0 < f.completionRate
      · simp only [List.foldl_cons, contribList_cons_some, if_pos hf]
        rw [ih]
        simp only [List.map_cons, List.sum_cons, List.length_cons, Prod.mk.injEq]
        refine ⟨by ring, by ring, by omega⟩
      · simp only [List.foldl_cons, contribList_cons_some, if_neg hf]
        exact ih a b n

theorem accum_eq (modelFits : List (Option ModelFitResult)) :
    modelFits.foldl
      (fun (acc : ℚ × ℚ × Nat) modelFit =>
        match modelFit with
        | some f =>
          if 0 < f.promptRate ∧ 0 < f.completionRate then
            (acc.1 + 1000 / f.promptRate, acc.2.1 + 1000 / f.completionRate, acc.2.2 + 1)
          else acc
        | none => acc)
      (0, 0, 0)
    = (((contribList modelFits).map (fun f => 1000 / f.promptRate)).sum,
       ((contribList modelFits).map (fun f => 1000 / f.completionRate)).sum,
       (contribList modelFits).length) := by
  rw [accum_general]
  simp

theorem contribList_eq_nil_iff (modelFits : List (Option ModelFitResult)) :
    contribList modelFits = [] ↔ ∀ mf ∈ modelFits, ¬ contributes mf := by
  unfold contribList
  rw [List.filterMap_eq_nil_iff]
  constructor
  · intro h mf hmf hc
    have hh := h mf hmf
    rw [if_pos hc] at hh
    cases mf with
    | some f => exact Option.noConfusion hh
    | none => exact hc
  · intro h mf hmf
    rw [if_neg (h mf hmf)]

theorem calculate_none_iff (cbrt : ℚ → ℚ) (modelFits : List (Option ModelFitResult)) :
    Calculate cbrt modelFits = none ↔ contribList modelFits = [] := by
  unfold Calculate
  rw [accum_eq]
  by_cases h : 0 < (contribList modelFits).length
  · simp only [if_pos h]
    constructor
    · intro hn
      exact Option.noConfusion hn
    · intro hnil
      rw [hnil] at h
      exact absurd h (by simp)
  · simp only [if_neg h]
    have h0 : (contribList modelFits).length = 0 := by omega
    simp [List.length_eq_zero.mp h0]

theorem calculate_isSome_of_ne (cbrt : ℚ → ℚ) (modelFits : List (Option ModelFitResult))
    (hne : contribList modelFits ≠ []) : (Calculate cbrt modelFits).isSome = true := by
  unfold Calculate
  rw [accum_eq, if_pos (List.length_pos.mpr hne)]
  rfl

theorem golden_contrib : contribList goldenFits =
    [⟨3, 1/100, 25, 1/2⟩, ⟨3, 1/100, 25, 1/2⟩] := by
  norm_num [contribList, goldenFits, List.filterMap_cons, contributes]

/-- Claim C6: with at least one contributing fit, the score the code
computes (accumulating loop, `validContexts` counter) is exactly the
specification formula — the contributing fits' rates converted to
tokens/sec as `1000/rate` and averaged, the effective TTFT
`AvgPromptTokens / avgPromptTPS * 1000`, and
`cbrt(avgP · avgC · (1000/ttft)) · 10` rounded to two decimals — and the
result is present.  `cbrt` abstracts `math.Pow(·, 1/3)`. -/
theorem calculate_matches_spec (cbrt : ℚ → ℚ) (modelFits : List (Option ModelFitResult))
    (hne : contribList modelFits ≠ []) :
    Calculate cbrt modelFits = specCompositeScore cbrt modelFits
    ∧ (Calculate cbrt modelFits).isSome = true := by
  refine ⟨?_, calculate_isSome_of_ne cbrt modelFits hne⟩
  have hpos : 0 < (contribList modelFits).length := List.length_pos.mpr hne
  unfold Calculate specCompositeScore
  rw [accum_eq]
  simp [if_neg hne, if_pos hpos]

/-- Closed instantiation of `calculate_matches_spec` on the golden input of
the specification — two fits with prompt rate 3 ms/token and completion
rate 25 ms/token — together with the deterministic concrete value the code
computes for them (with `cbrt` instantiated to the identity). -/
theorem calculate_matches_spec_witness :
    (Calculate (fun x => x) goldenFits = specCompositeScore (fun x => x) goldenFits
      ∧ (Calculate (fun x => x) goldenFits).isSome = true)
    ∧ Calculate (fun x => x) goldenFits = some (3337773/100 : ℚ) := by
  constructor
  · exact calculate_matches_spec (fun x => x) goldenFits (by rw [golden_contrib]; simp)
  · unfold Calculate
    rw [accum_eq, golden_contrib]
    norm_num [round2, mathRound, AvgPromptTokens, ScalingFactor]

/-- Claim C7: the composite score is absent (`none`) exactly when no
contributing fit exists — a fit contributes iff it is non-nil with positive
prompt and completion rates — and with at least one contributing fit the
result is present. -/
theorem calculate_absent_iff (cbrt : ℚ → ℚ) (modelFits : List (Option ModelFitResult)) :
    (Calculate cbrt modelFits = none ↔ ∀ mf ∈ modelFits, ¬ contributes mf)
    ∧ ((∃ mf ∈ modelFits, contributes mf) → (Calculate cbrt modelFits).isSome = true) := by
  constructor
  · rw [calculate_none_iff]
    exact contribList_eq_nil_iff modelFits
  · rintro ⟨mf, hmf, hc⟩
    cases mf with
    | none => exact absurd hc (by simp [contributes])
    | some f =>
      have hmem : f ∈ contribList modelFits :=
        List.mem_filterMap.mpr ⟨some f, hmf, by rw [if_pos hc]⟩
      exact calculate_isSome_of_ne cbrt modelFits (List.ne_nil_of_mem hmem)

/-- Closed instantiation of `calculate_absent_iff`: the empty fit list gives
an absent score, and the golden list gives a present one. -/
theorem calculate_absent_iff_witness :
    Calculate (fun x => x) ([] : List (Option ModelFitResult)) = none
    ∧ (Calculate (fun x => x) goldenFits).isSome = true := by
  refine ⟨(calculate_absent_iff (fun x => x) []).1.mpr (by simp), ?_⟩
  refine (calculate_absent_iff (fun x => x) goldenFits).2
    ⟨some ⟨3, 1/100, 25, 1/2⟩, by simp [goldenFits], by norm_num [contributes]⟩

/-! ### The probe content generator -/

theorem lorem_ne_nil : loremIpsumText ≠ [] := by
  intro h
  have h2 : loremIpsumText.head? = none := by rw [h]; rfl
  rw [show loremIpsumText.head? = some 'L' from rfl] at h2
  exact Option.noConfusion h2

theorem repeatText_length (n : Nat) : (repeatText n).length = n * loremIpsumText.length := by
  induction n with
  | zero =>
    rw [show repeatText 0 = [] from rfl]
    simp
  | succ k ih =>
    rw [show repeatText (k + 1) = loremIpsumText ++ repeatText k from rfl,
      List.length_append, ih, Nat.succ_mul]
    exact Nat.add_comm _ _

theorem gen_lorem_len (targetLength : Int) (hpos : 0 < targetLength) :
    ((generateLoremIpsum targetLength).length : Int) = targetLength := by
  unfold generateLoremIpsum
  rw [if_neg (not_le.mpr hpos)]
  have htn : 0 < loremIpsumText.length := List.length_pos.mpr lorem_ne_nil
  set t : Nat := loremIpsumText.length with ht
  set a : Nat := targetLength.toNat with ha
  have hA : targetLength = (a : Int) := (Int.toNat_of_nonneg (le_of_lt hpos)).symm
  have ha1 : 1 ≤ a := by omega
  have hcast : targetLength + (t : Int) - 1 = ((a + t - 1 : Nat) : Int) := by omega
  have hrep : Int.tdiv (targetLength + (t : Int) - 1) (t : Int)
      = (((a + t - 1) / t : Nat) : Int) := by
    rw [hcast]
    exact (Int.ofNat_tdiv _ _).symm
  rw [hrep]
  simp only [Int.toNat_natCast]
  set q : Nat := (a + t - 1) / t with hq
  have hqa : a ≤ q * t := by
    have hd := Nat.div_add_mod (a + t - 1) t
    have hm := Nat.mod_lt (a + t - 1) htn
    rw [← hq] at hd
    have hn1 : (a + t - 1) + 1 = a + t := by omega
    have hcomm : t * q = q * t := Nat.mul_comm t q
    linarith [hd, hm, hn1, hcomm]
  by_cases hgt : targetLength < ((repeatText q).length : Int)
  · rw [if_pos hgt, List.length_take, repeatText_length, ← ht, min_eq_left hqa]
    exact hA.symm
  · rw [if_neg hgt, repeatText_length, ← ht]
    have h1 : ((q * t : Nat) : Int) ≤ targetLength := by
      have h0 := not_lt.mp hgt
      rwa [repeatText_length, ← ht] at h0
    have h2 : targetLength ≤ ((q * t : Nat) : Int) := by
      rw [hA]
      exact_mod_cast hqa
    exact le_antisymm h1 h2


/-- Claim C9: for every positive target length the filler is a string of
exactly `targetLength` characters (the fixed corpus repeated as many times
as needed and truncated to exact length); for a non-positive target length
the filler is empty; and in all cases the generated message consists of the
random prefix `"seed:" ++ token ++ "\n"`, the filler, and the optional
suffix verbatim. -/
theorem generateLoremIpsum_spec (targetLength : Int) :
    (0 < targetLength → ((generateLoremIpsum targetLength).length : Int) = targetLength)
    ∧ (targetLength ≤ 0 → generateLoremIpsum targetLength = [])
    ∧ ∀ sfx randSeed : List Char, generateMessages targetLength sfx randSeed =
        [{ role := "user",
           content := "seed:".toList ++ randSeed ++ ['\n'] ++ generateLoremIpsum targetLength ++ sfx }] := by
  refine ⟨gen_lorem_len targetLength, ?_, ?_⟩
  · intro hle
    unfold generateLoremIpsum
    rw [if_pos hle]
  · intro sfx randSeed
    unfold generateMessages
    by_cases hs : sfx = []
    · subst hs
      simp
    · simp [hs, List.append_assoc]

/-- Closed instantiation of `generateLoremIpsum_spec` at lengths 5, -3 and
0. -/
theorem generateLoremIpsum_spec_witness :
    ((generateLoremIpsum 5).length : Int) = 5
    ∧ generateLoremIpsum (-3) = []
    ∧ generateMessages 0 "!".toList "abc".toList =
        [{ role := "user",
           content := "seed:".toList ++ "abc".toList ++ ['\n'] ++ generateLoremIpsum 0 ++ "!".toList }] :=
  ⟨(generateLoremIpsum_spec 5).1 (by norm_num),
   (generateLoremIpsum_spec (-3)).2.1 (by norm_num),
   (generateLoremIpsum_spec 0).2.2 "!".toList "abc".toList⟩

/-! ### The parameter-matrix expander -/

/-- Writing a key absent from the combination appends the pair. -/
theorem setKV_not_mem (l : List (String × String)) (k v : String)
    (h : k ∉ l.map Prod.fst) : setKV l k v = l ++ [(k, v)] := by
  induction l with
  | nil => rfl
  | cons p rest ih =>
    obtain ⟨k', v'⟩ := p
    simp only [List.map_cons, List.mem_cons] at h
    push_neg at h
    rw [show setKV ((k', v') :: rest) k v
        = (if k' = k then (k, v) :: rest else (k', v') :: setKV rest k v) from rfl]
    rw [if_neg (fun hh => h.1 hh.symm), ih h.2]
    rfl

/-- The fold over one parameter's values, assuming the recursion already
expands the remaining parameters to `specCombos`. -/
theorem generateCombinations_fold_eq
    (rest : List (String × List String)) (k : String)
    (hrec : ∀ (current : List (String × String)) (result : List (List (String × String))),
      (∀ k' ∈ rest.map Prod.fst, k' ∉ current.map Prod.fst) →
      generateCombinations rest current result
        = result ++ (specCombos rest).map (fun c => current ++ c))
    (current : List (String × String))
    (hk_not : k ∉ current.map Prod.fst)
    (hk_rest : k ∉ rest.map Prod.fst)
    (hdis : ∀ k' ∈ rest.map Prod.fst, k' ∉ current.map Prod.fst) :
    ∀ (values : List String) (result : List (List (String × String))),
      values.foldl (fun res v => generateCombinations rest (setKV current k v) res) result
        = result ++
          ((values.map (fun v => (specCombos rest).map (fun tail => (k, v) :: tail))).flatten).map
            (fun c => current ++ c) := by
  intro values
  induction values with
  | nil => intro result; simp
  | cons v vs ihv =>
    intro result
    rw [List.foldl_cons, ihv, List.map_cons, List.flatten_cons, List.map_append]
    have hdis2 : ∀ k' ∈ rest.map Prod.fst, k' ∉ (setKV current k v).map Prod.fst := by
      intro k' hk'
      rw [setKV_not_mem current k v hk_not]
      simp only [List.map_append, List.mem_append]
      rintro (h1 | h2)
      · exact hdis k' hk' h1
      · simp only [List.map_cons, List.map_nil, List.mem_singleton] at h2
        exact hk_rest (h2 ▸ hk')
    rw [hrec (setKV current k v) result hdis2]
    rw [setKV_not_mem current k v hk_not, List.map_map]
    rw [List.append_assoc]
    congr 2
    apply List.map_congr_left
    intro c _
    simp only [Function.comp_apply]
    rw [List.append_assoc]
    rfl

/-- With pairwise distinct keys disjoint from the current combination,
`generateCombinations` appends the cartesian product (each tail prefixed by
the current combination) to the accumulated result. -/
theorem generateCombinations_eq :
    ∀ (ks : List (String × List String)) (current : List (String × String))
      (result : List (List (String × String))),
      (∀ k ∈ ks.map Prod.fst, k ∉ current.map Prod.fst) →
      (ks.map Prod.fst).Nodup →
      generateCombinations ks current result
        = result ++ (specCombos ks).map (fun c => current ++ c) := by
  intro ks
  induction ks with
  | nil =>
    intro current result _ _
    simp [generateCombinations, specCombos]
  | cons kv rest ih =>
    obtain ⟨k, values⟩ := kv
    intro current result hdis hnd
    have hk_not : k ∉ current.map Prod.fst := hdis k (by simp)
    rw [List.map_cons] at hnd
    have hnd0 := List.nodup_cons.mp hnd
    have hdis' : ∀ k' ∈ rest.map Prod.fst, k' ∉ current.map Prod.fst := by
      intro k' hk'
      exact hdis k' (by simp [hk'])
    rw [show generateCombinations ((k, values) :: rest) current result
        = values.foldl (fun res v => generateCombinations rest (setKV current k v) res) result
        from rfl]
    rw [show specCombos ((k, values) :: rest)
        = (values.map (fun v => (specCombos rest).map (fun tail => (k, v) :: tail))).flatten
        from rfl]
    exact generateCombinations_fold_eq rest k
      (fun cur res hd => ih cur res hd hnd0.2) current hk_not hnd0.1 hdis' values result

/-- The cartesian product has as many combinations as the product of the
value-list lengths. -/
theorem specCombos_length :
    ∀ ks : List (String × List String),
      (specCombos ks).length = (ks.map (fun p => (Prod.snd p).length)).prod := by
  intro ks
  induction ks with
  | nil => rfl
  | cons kv rest ih =>
    obtain ⟨k, values⟩ := kv
    rw [show specCombos ((k, values) :: rest)
        = (values.map (fun v => (specCombos rest).map (fun tail => (k, v) :: tail))).flatten
        from rfl]
    rw [List.length_flatten, List.map_map]
    have hs : ∀ vs : List String,
        (vs.map (List.length ∘ fun v => (specCombos rest).map (fun tail => (k, v) :: tail))).sum
          = vs.length * (specCombos rest).length := by
      intro vs
      induction vs with
      | nil => simp
      | cons v vs ih2 =>
        simp only [List.map_cons, List.sum_cons, Function.comp_apply, List.length_map,
          ih2, List.length_cons]
        ring
    rw [hs, List.map_cons, List.prod_cons, ih]

/-- Membership in the cartesian product is exactly `isChoice`. -/
theorem specCombos_mem :
    ∀ (ks : List (String × List String)) (comb : List (String × String)),
      comb ∈ specCombos ks ↔ isChoice ks comb := by
  intro ks
  induction ks with
  | nil => intro comb; cases comb <;> simp [specCombos, isChoice]
  | cons kv rest ih =>
    obtain ⟨k, values⟩ := kv
    intro comb
    rw [show specCombos ((k, values) :: rest)
        = (values.map (fun v => (specCombos rest).map (fun tail => (k, v) :: tail))).flatten
        from rfl]
    rw [List.mem_flatten]
    constructor
    · rintro ⟨l, hl, hcomb⟩
      obtain ⟨v, hv, rfl⟩ := List.mem_map.mp hl
      obtain ⟨tail, htail, rfl⟩ := List.mem_map.mp hcomb
      exact ⟨rfl, hv, (ih tail).mp htail⟩
    · intro hc
      cases comb with
      | nil => exact absurd hc (by simp [isChoice])
      | cons p tail =>
        obtain ⟨kp, vp⟩ := p
        rw [show isChoice ((k, values) :: rest) ((kp, vp) :: tail)
            = (kp = k ∧ vp ∈ values ∧ isChoice rest tail) from rfl] at hc
        obtain ⟨hk, hv, htail⟩ := hc
        subst hk
        exact ⟨(specCombos rest).map (fun t => (kp, vp) :: t),
          List.mem_map.mpr ⟨vp, hv, rfl⟩,
          List.mem_map.mpr ⟨tail, (ih tail).mpr htail, rfl⟩⟩

/-- Blocks built from duplicate-free values over a duplicate-free tail list
flatten to a duplicate-free list. -/
theorem flatten_blocks_nodup (k : String) (S : List (List (String × String)))
    (hS : S.Nodup) :
    ∀ values : List String, values.Nodup →
      ((values.map (fun v => S.map (fun tail => (k, v) :: tail))).flatten).Nodup := by
  intro values
  induction values with
  | nil => intro _; simp
  | cons v vs ih =>
    intro hnd
    obtain ⟨hv, hvs⟩ := List.nodup_cons.mp hnd
    rw [List.map_cons, List.flatten_cons, List.nodup_append]
    refine ⟨?_, ih hvs, ?_⟩
    · refine hS.map ?_
      intro t1 t2 h
      injection h
    · intro x hx1 hx2
      obtain ⟨t1, _, rfl⟩ := List.mem_map.mp hx1
      obtain ⟨l, hl, hx⟩ := List.mem_flatten.mp hx2
      obtain ⟨v', hv', rfl⟩ := List.mem_map.mp hl
      obtain ⟨t2, _, heq⟩ := List.mem_map.mp hx
      injection heq with h1 h2
      injection h1 with _ h3
      exact hv (h3 ▸ hv')

/-- With duplicate-free value lists the cartesian product is duplicate-free. -/
theorem specCombos_nodup :
    ∀ ks : List (String × List String),
      (∀ kv ∈ ks, (Prod.snd kv).Nodup) → (specCombos ks).Nodup := by
  intro ks
  induction ks with
  | nil => intro _; simp [specCombos]
  | cons kv rest ih =>
    obtain ⟨k, values⟩ := kv
    intro hv
    have hvnd : values.Nodup := by simpa using hv (k, values) (by simp)
    have hrest := ih (fun kv hkv => hv kv (by simp [hkv]))
    rw [show specCombos ((k, values) :: rest)
        = (values.map (fun v => (specCombos rest).map (fun tail => (k, v) :: tail))).flatten
        from rfl]
    exact flatten_blocks_nodup k (specCombos rest) hrest values hvnd

/-- An entry with an empty value list is dropped by `keptParams`. -/
theorem keptParams_cons_nil (k : String) (c : ParameterConfig)
    (rest : List (String × ParameterConfig)) (hc : c.values = []) :
    keptParams ((k, c) :: rest) = keptParams rest := by
  simp [keptParams, List.filterMap_cons, hc]

/-- An entry with a non-empty value list is kept by `keptParams`. -/
theorem keptParams_cons_ne (k : String) (c : ParameterConfig)
    (rest : List (String × ParameterConfig)) (hc : c.values ≠ []) :
    keptParams ((k, c) :: rest) = (k, c.values) :: keptParams rest := by
  simp [keptParams, List.filterMap_cons, hc]

/-- The kept keys form a sublist of the matrix keys. -/
theorem keptParams_keys_sublist (matrix : List (String × ParameterConfig)) :
    ((keptParams matrix).map Prod.fst).Sublist (matrix.map Prod.fst) := by
  induction matrix with
  | nil => simp [keptParams]
  | cons kc rest ih =>
    obtain ⟨k, c⟩ := kc
    by_cases hc : c.values = []
    · rw [keptParams_cons_nil k c rest hc]
      simpa using ih.cons k
    · rw [keptParams_cons_ne k c rest hc]
      simpa using ih.cons₂ k

/-- Duplicate-freeness of the value lists carries over to the kept entries. -/
theorem keptParams_values_nodup (matrix : List (String × ParameterConfig))
    (hvals : ∀ kc ∈ matrix, (Prod.snd kc).values.Nodup) :
    ∀ kv ∈ keptParams matrix, (Prod.snd kv).Nodup := by
  intro kv hkv
  obtain ⟨kc, hkc, heq⟩ := List.mem_filterMap.mp hkv
  by_cases hc : kc.2.values = []
  · rw [if_pos hc] at heq; exact Option.noConfusion heq
  · rw [if_neg hc] at heq
    injection heq with heq'
    rw [← heq']
    exact hvals kc hkc

/-- Claim C10 (amended): for a matrix with pairwise distinct keys whose value
lists are each duplicate-free, the expander returns exactly the cartesian
product of the non-empty value lists — no combinations when every list is
empty (or the matrix is), otherwise `specCombos` of the kept parameters:
the count is the product of the kept list lengths, membership is exactly
picking one listed value per kept key in order, and no combination repeats.
The distinct-key hypothesis models the Go map; without duplicate-free value
lists the repetition clause fails (see the counterexample). -/
theorem generateParamCombinations_correct
    (matrix : List (String × ParameterConfig))
    (hkeys : (matrix.map Prod.fst).Nodup)
    (hvals : ∀ kc ∈ matrix, (Prod.snd kc).values.Nodup) :
    (keptParams matrix = [] → generateParamCombinations matrix = [])
    ∧ (keptParams matrix ≠ [] →
        generateParamCombinations matrix = specCombos (keptParams matrix))
    ∧ (generateParamCombinations matrix).length
        = (if keptParams matrix = [] then 0
           else ((keptParams matrix).map (fun p => (Prod.snd p).length)).prod)
    ∧ (∀ comb, comb ∈ generateParamCombinations matrix ↔
        keptParams matrix ≠ [] ∧ isChoice (keptParams matrix) comb)
    ∧ (generateParamCombinations matrix).Nodup := by
  have hkk : ((keptParams matrix).map Prod.fst).Nodup :=
    hkeys.sublist (keptParams_keys_sublist matrix)
  have hkv := keptParams_values_nodup matrix hvals
  have hzero : keptParams matrix = [] → generateParamCombinations matrix = [] := by
    intro hke
    rw [show generateParamCombinations matrix
        = (if matrix = [] then []
           else if keptParams matrix = [] then []
           else generateCombinations (keptParams matrix) [] []) from rfl]
    by_cases hm : matrix = []
    · rw [if_pos hm]
    · rw [if_neg hm, if_pos hke]
  have hmain : keptParams matrix ≠ [] →
      generateParamCombinations matrix = specCombos (keptParams matrix) := by
    intro hne
    have hm : matrix ≠ [] := by
      intro h; subst h; exact hne rfl
    rw [show generateParamCombinations matrix
        = (if matrix = [] then []
           else if keptParams matrix = [] then []
           else generateCombinations (keptParams matrix) [] []) from rfl]
    rw [if_neg hm, if_neg hne]
    rw [generateCombinations_eq (keptParams matrix) [] [] (by simp) hkk]
    simp
  refine ⟨hzero, hmain, ?_, ?_, ?_⟩
  · by_cases hne : keptParams matrix = []
    · rw [if_pos hne, hzero hne]; rfl
    · rw [if_neg hne, hmain hne]
      exact specCombos_length (keptParams matrix)
  · intro comb
    by_cases hne : keptParams matrix = []
    · rw [hzero hne]
      simp [hne]
    · rw [hmain hne]
      rw [specCombos_mem (keptParams matrix) comb]
      exact ⟨fun h => ⟨hne, h⟩, fun h => h.2⟩
  · by_cases hne : keptParams matrix = []
    · rw [hzero hne]; exact List.nodup_nil
    · rw [hmain hne]
      exact specCombos_nodup (keptParams matrix) hkv

/-- Claim C10, counterexample to the unamended statement: a value list with
a repeated entry makes the expander emit the same combination twice, so
"every combination appears exactly once" fails on the raw claim. -/
theorem generateParamCombinations_duplicate_counterexample :
    dupMatrix.map Prod.fst = ["k"]
    ∧ generateParamCombinations dupMatrix = [[("k", "a")], [("k", "a")]]
    ∧ ¬ (generateParamCombinations dupMatrix).Nodup := by decide

/-- Claim C10, witness: on the concrete matrix `m10` the hypotheses hold,
the empty-valued parameter is skipped, and the expander emits the 6 = 2·3
distinct combinations of the two kept parameters. -/
theorem generateParamCombinations_correct_witness :
    generateParamCombinations m10 = specCombos (keptParams m10)
    ∧ (generateParamCombinations m10).length = 6
    ∧ (generateParamCombinations m10).Nodup := by
  have h := generateParamCombinations_correct m10 (by decide) (by decide)
  have hne : keptParams m10 ≠ [] := by decide
  refine ⟨h.2.1 hne, ?_, h.2.2.2.2⟩
  rw [h.2.2.1, if_neg hne]
  decide

end Turtlenekko
